import Mathlib

/-!
Verification of the listing normalization and curation pipeline of the
ebay-card-scraper repository.

Python strings are modelled as `List Char`; Python functions over strings
become Lean functions over `List Char`.  Each definition is translated from
the named source function; doc comments name the source location.
-/

set_option maxRecDepth 10000

/-! ### Generic list helpers -/

/-- Restatement of the library fact that `isPrefixOf` decides `<+:`. -/
lemma isPrefixOfIff (p l : List Char) : p.isPrefixOf l = true ↔ p <+: l :=
  List.isPrefixOf_iff_prefix

/-- An occurrence inside `c :: l` is either at the head or inside `l`. -/
lemma isInfixConsSplit (q : List Char) (c : Char) (l : List Char) (h : q <:+: c :: l) :
    q <+: c :: l ∨ q <:+: l :=
  List.infix_cons_iff.mp h

/-- Nothing non-empty occurs inside the empty list. -/
lemma isInfixNil (q : List Char) (h : q <:+: ([] : List Char)) : q = [] :=
  List.sublist_nil.mp h.sublist

/-- A non-empty pattern that is a prefix of `c :: l` starts with `c`. -/
lemma prefixConsInv (p l : List Char) (c : Char) (h : p <+: c :: l) (hp : p ≠ []) :
    ∃ p', p = c :: p' ∧ p' <+: l := by
  obtain ⟨t, ht⟩ := h
  match p, hp with
  | x :: p', _ =>
    simp only [List.cons_append, List.cons.injEq] at ht
    exact ⟨p', by simp [ht.1], ⟨t, ht.2⟩⟩

/-- The last entry of a non-empty tail-part equals the last entry of the whole. -/
lemma getLastOfSuffixPart (s q : List Char) (h : q <:+ s) (hq : q ≠ []) :
    q.getLast? = s.getLast? := by
  obtain ⟨t, rfl⟩ := h
  rw [List.getLast?_append_of_ne_nil _ hq]

/-- An occurrence inside an append decomposes into an occurrence in either part,
or a straddling split. -/
lemma isInfixAppendSplit (q a b : List Char) (h : q <:+: a ++ b) :
    q <:+: a ∨ q <:+: b ∨
      ∃ q1 q2, q = q1 ++ q2 ∧ q1 ≠ [] ∧ q2 ≠ [] ∧ q1 <:+ a ∧ q2 <+: b := by
  obtain ⟨s, t, hst⟩ := h
  rcases List.append_eq_append_iff.mp hst with ⟨w, ha, hb⟩ | ⟨w, hs, hb⟩
  · -- a = (s ++ q) ++ w and t = w ++ b : q occurs in a
    left
    exact ⟨s, w, by rw [ha]⟩
  · -- s ++ q = a ++ w and b = w ++ t
    rcases List.append_eq_append_iff.mp hs with ⟨v, hav, hq⟩ | ⟨v, hsv, hw⟩
    · -- a = s ++ v and q = v ++ w
      by_cases h1 : v = []
      · right; left
        subst h1
        simp only [List.nil_append] at hq
        exact ⟨[], t, by rw [← hq] at hb; simp [hb]⟩
      · by_cases h2 : w = []
        · left
          subst h2
          simp only [List.append_nil] at hq
          exact ⟨s, [], by rw [hav, hq, List.append_nil]⟩
        · right; right
          exact ⟨v, w, hq, h1, h2, ⟨s, hav.symm⟩, ⟨t, hb.symm⟩⟩
    · -- s = a ++ v and w = v ++ q : q occurs in b
      right; left
      refine ⟨v, t, ?_⟩
      rw [hb, hw]

/-! ### Python string primitives -/

/-- One Python whitespace character, as matched by `str.strip` and the
regex class `\s` (ASCII model). -/
def isPySpace (c : Char) : Bool :=
  c = ' ' || c = '\t' || c = '\n' || c = '\r' || c = '\x0b' || c = '\x0c'

/-- Regex word character (`\w`, ASCII model): letter, digit or underscore. -/
def isWordChar (c : Char) : Bool :=
  c.isAlphanum || c = '_'

/-- Case-insensitive character comparison used for `re.IGNORECASE` (ASCII model). -/
def ciEq (a b : Char) : Bool :=
  a.toLower = b.toLower

/-- `text.lower()` (ASCII model). -/
def pyLower (s : List Char) : List Char := s.map Char.toLower

/-- `text.upper()` (ASCII model). -/
def pyUpper (s : List Char) : List Char := s.map Char.toUpper

/-- `text.strip()` (default whitespace strip). -/
def pyStrip (s : List Char) : List Char :=
  ((s.dropWhile isPySpace).reverse.dropWhile isPySpace).reverse

/-- Worker for `pyReplace`, structurally recursive so that the kernel can
evaluate it: a positive first argument means that many characters of a matched
pattern occurrence remain to be consumed silently. -/
def pyReplaceAux (pat rep : List Char) : Nat → List Char → List Char
  | _, [] => []
  | Nat.succ n, _ :: t => pyReplaceAux pat rep n t
  | 0, c :: t =>
    if pat ≠ [] ∧ pat.isPrefixOf (c :: t) then
      rep ++ pyReplaceAux pat rep (pat.length - 1) t
    else
      c :: pyReplaceAux pat rep 0 t

/-- `text.replace(pat, rep)` for a non-empty pattern `pat`: replace all
non-overlapping occurrences, scanning left to right.  (For `pat = []` this is
the identity; the modelled call sites all use non-empty literals.) -/
def pyReplace (pat rep t : List Char) : List Char := pyReplaceAux pat rep 0 t

/-- Skipping `n` characters and continuing is continuing after dropping them. -/
lemma pyReplaceAux_skip (pat rep : List Char) (n : Nat) (t : List Char) :
    pyReplaceAux pat rep n t = pyReplaceAux pat rep 0 (t.drop n) := by
  induction t generalizing n with
  | nil => cases n <;> simp [pyReplaceAux]
  | cons c t ih =>
    cases n with
    | zero => simp
    | succ n =>
      rw [pyReplaceAux, List.drop_succ_cons]
      exact ih n

/-- Unfolding: the empty text. -/
lemma pyReplace_nil (pat rep : List Char) : pyReplace pat rep [] = [] := rfl

/-- Unfolding: a match at the head is replaced and skipped. -/
lemma pyReplace_cons_pos (pat rep : List Char) (c : Char) (t : List Char)
    (h1 : pat ≠ []) (h2 : pat.isPrefixOf (c :: t) = true) :
    pyReplace pat rep (c :: t) = rep ++ pyReplace pat rep ((c :: t).drop pat.length) := by
  have hp : 0 < pat.length := List.length_pos.mpr h1
  show pyReplaceAux pat rep 0 (c :: t) = _
  rw [pyReplaceAux, if_pos ⟨h1, h2⟩, pyReplaceAux_skip]
  have : (c :: t).drop pat.length = t.drop (pat.length - 1) := by
    cases hl : pat.length with
    | zero => omega
    | succ m => simp [hl, List.drop_succ_cons]
  rw [this]
  rfl

/-- Unfolding: no match at the head keeps the character. -/
lemma pyReplace_cons_neg (pat rep : List Char) (c : Char) (t : List Char)
    (h : ¬ (pat ≠ [] ∧ pat.isPrefixOf (c :: t) = true)) :
    pyReplace pat rep (c :: t) = c :: pyReplace pat rep t := by
  show pyReplaceAux pat rep 0 (c :: t) = _
  rw [pyReplaceAux, if_neg (by simpa using h)]
  rfl

/-- Worker for `pySplit`, structurally recursive: a positive counter means
that many characters of a matched separator remain to be consumed. -/
def pySplitAux (sep : List Char) (cur : List Char) : Nat → List Char → List (List Char)
  | _, [] => [cur.reverse]
  | Nat.succ n, _ :: t => pySplitAux sep cur n t
  | 0, c :: t =>
    if sep ≠ [] ∧ sep.isPrefixOf (c :: t) then
      cur.reverse :: pySplitAux sep [] (sep.length - 1) t
    else
      pySplitAux sep (c :: cur) 0 t

/-- `text.split(sep)` for a non-empty separator. -/
def pySplit (sep s : List Char) : List (List Char) := pySplitAux sep [] 0 s

/-- `text.split(sep)` for a single-character separator (used for `','` and `'/'`). -/
def pySplitChar (sep : Char) (s : List Char) : List (List Char) :=
  pySplit [sep] s

/-! ### C1 — `EbayCardScraper._is_valid_image_url` (src/ebay_card_scraper.py:254-276) -/

/-- A character allowed in a URL scheme (`urllib.parse.scheme_chars`). -/
def isSchemeChar (c : Char) : Bool :=
  c.isAlphanum || c = '+' || c = '-' || c = '.'

/-- Scheme removal step of `urllib.parse.urlsplit`: if the text up to the first
`':'` is a well-formed scheme (first char a letter, all chars scheme chars),
drop it together with the colon. -/
def urlsplitStripScheme (u : List Char) : List Char :=
  match u.findIdx? (· = ':') with
  | none => u
  | some i =>
    if 0 < i ∧ (u.head?.any Char.isAlpha) ∧ (u.take i).all isSchemeChar then
      u.drop (i + 1)
    else u

/-- `urllib.parse.urlparse(url).netloc`: after scheme removal, the component
between a leading `//` and the next `/`, `?` or `#` (empty if there is no
leading `//`). -/
def urlsplit_netloc (u : List Char) : List Char :=
  let rest := urlsplitStripScheme u
  if (r"//").toList.isPrefixOf rest then
    (rest.drop 2).takeWhile (fun c => !(c == '/' || c == '?' || c == '#'))
  else []

/-- Does the URL end (case-insensitively via a prior `lower()`) in one of the
recognized image extensions? Models `url.lower().endswith(('.jpg', '.jpeg',
'.png', '.gif'))`. -/
def hasImageExt (l : List Char) : Bool :=
  [(r".jpg").toList, (r".jpeg").toList, (r".png").toList, (r".gif").toList].any
    (fun e => e.isSuffixOf l)

/-- `EbayCardScraper._is_valid_image_url` (src/ebay_card_scraper.py:254-276):
reject empty and `data:` URLs; accept when the netloc is `ebayimg.com` or a
subdomain; otherwise accept only a recognized image extension; reject URLs
without a netloc. -/
def is_valid_image_url (url : List Char) : Bool :=
  if url = [] then false
  else if (r"data:").toList.isPrefixOf url then false
  else
    let netloc := urlsplit_netloc url
    if netloc ≠ [] then
      if netloc = (r"ebayimg.com").toList ∨ (r".ebayimg.com").toList.isSuffixOf netloc then
        true
      else if hasImageExt (pyLower url) then true
      else false
    else false

/-- C1 (code bug): the validation gate accepts the look-alike host
`https://evilebayimg.com/fake.jpg` (and the path-segment trick
`https://evil.com/ebayimg.com/fake.jpg`) through the image-extension fallback,
although its own comment says these are prevented and the claim says every
look-alike host is rejected; genuine subdomains are accepted, and a look-alike
without a recognized image extension is indeed rejected. -/
theorem c1_lookalike_host_accepted :
    is_valid_image_url ((r"https://evilebayimg.com/fake.jpg").toList) = true
    ∧ urlsplit_netloc ((r"https://evilebayimg.com/fake.jpg").toList)
        = (r"evilebayimg.com").toList
    ∧ (r"evilebayimg.com").toList ≠ (r"ebayimg.com").toList
    ∧ ((r".ebayimg.com").toList.isSuffixOf ((r"evilebayimg.com").toList)) = false
    ∧ is_valid_image_url ((r"https://evil.com/ebayimg.com/fake.jpg").toList) = true
    ∧ is_valid_image_url ((r"https://i.ebayimg.com/images/g/abc/s-l1600.webp").toList) = true
    ∧ is_valid_image_url ((r"https://evilebayimg.com/fake").toList) = false := by
  refine ⟨by decide, by decide, by decide, by decide, by decide, by decide, by decide⟩

/-! ### C2 — `merge_csv_files` (src/utils/convert_to_csv.py:263-307) -/

/-- One CSV row of a persisted dataset, with the flattened schema of the
dataset files (every cell a string). -/
structure Row where
  title : List Char
  card_name : List Char
  grading_company : List Char
  grade : List Char
  price : List Char
  listing_url : List Char
  listing_id : List Char
  image_urls : List Char
  source : List Char
  scraped_date : List Char
  images : List Char
deriving DecidableEq, Repr

/-- `DataFrame.drop_duplicates(subset=['listing_url'], keep='first')`:
keep a row iff its `listing_url` has not been seen earlier. -/
def dropDuplicatesByUrl (seen : List (List Char)) : List Row → List Row
  | [] => []
  | row :: rest =>
    if row.listing_url ∈ seen then dropDuplicatesByUrl seen rest
    else row :: dropDuplicatesByUrl (row.listing_url :: seen) rest

/-- `merge_csv_files` (src/utils/convert_to_csv.py:263-307), data part:
concatenate the input tables in order (`pd.concat`), then, when
`remove_duplicates` is set, drop duplicate rows by the `listing_url` column
keeping the first occurrence.  (File I/O and the unreadable-file fallback are
outside the model; the fixed schema always has a `listing_url` column.) -/
def merge_csv_files (dfs : List (List Row)) (remove_duplicates : Bool) : List Row :=
  let merged := dfs.flatten
  if remove_duplicates then dropDuplicatesByUrl [] merged else merged

/-- Identity key of the data model, as worded by the spec (§3): modelled from
the spec, for comparison with the key the code actually uses. -/
def specIdentityKey (row : Row) : List Char × List Char :=
  if row.listing_id ≠ (r"unknown").toList then (row.source, row.listing_id)
  else (row.source, row.listing_url)

/-- A row of the first example dataset for the C2 counterexample. -/
def c2RowA : Row :=
  { title := (r"Charizard PSA 10").toList
    card_name := (r"Charizard").toList
    grading_company := (r"PSA").toList
    grade := (r"10").toList
    price := (r"100.0").toList
    listing_url := (r"https://www.ebay.com/itm/1").toList
    listing_id := (r"111").toList
    image_urls := []
    source := (r"ebay").toList
    scraped_date := (r"2024-01-01").toList
    images := [] }

/-- A row of the second example dataset: same `listing_url` as `c2RowA` but a
different spec identity key (different source and listing id). -/
def c2RowB : Row :=
  { title := (r"Pikachu CGC 9").toList
    card_name := (r"Pikachu").toList
    grading_company := (r"CGC").toList
    grade := (r"9").toList
    price := (r"50.0").toList
    listing_url := (r"https://www.ebay.com/itm/1").toList
    listing_id := (r"222").toList
    image_urls := []
    source := (r"mercari").toList
    scraped_date := (r"2024-01-02").toList
    images := [] }

/-- No url of the dedup output was already seen on entry. -/
lemma dropDupByUrl_not_seen (l : List Row) (seen : List (List Char)) (u : List Char)
    (h : u ∈ (dropDuplicatesByUrl seen l).map Row.listing_url) : u ∉ seen := by
  induction l generalizing seen with
  | nil => simp [dropDuplicatesByUrl] at h
  | cons row rest ih =>
    by_cases hm : row.listing_url ∈ seen
    · rw [dropDuplicatesByUrl, if_pos hm] at h
      exact ih seen h
    · rw [dropDuplicatesByUrl, if_neg hm] at h
      simp only [List.map_cons, List.mem_cons] at h
      rcases h with rfl | h
      · exact hm
      · intro hs
        exact ih _ h (by simp [hs])

/-- The urls of the dedup output are pairwise distinct. -/
lemma dropDupByUrl_nodup (l : List Row) (seen : List (List Char)) :
    ((dropDuplicatesByUrl seen l).map Row.listing_url).Nodup := by
  induction l generalizing seen with
  | nil => simp [dropDuplicatesByUrl]
  | cons row rest ih =>
    by_cases hm : row.listing_url ∈ seen
    · rw [dropDuplicatesByUrl, if_pos hm]
      exact ih seen
    · rw [dropDuplicatesByUrl, if_neg hm]
      simp only [List.map_cons, List.nodup_cons]
      refine ⟨fun hc => ?_, ih _⟩
      have := dropDupByUrl_not_seen rest _ _ hc
      simp at this

/-- The dedup output is a sublist (rows kept field-for-field, in order). -/
lemma dropDupByUrl_sublist (l : List Row) (seen : List (List Char)) :
    (dropDuplicatesByUrl seen l).Sublist l := by
  induction l generalizing seen with
  | nil => simp [dropDuplicatesByUrl]
  | cons row rest ih =>
    by_cases hm : row.listing_url ∈ seen
    · rw [dropDuplicatesByUrl, if_pos hm]
      exact (ih seen).cons row
    · rw [dropDuplicatesByUrl, if_neg hm]
      exact (ih _).cons₂ row

/-- For an unseen url, dedup preserves the first matching row. -/
lemma dropDupByUrl_find (l : List Row) (seen : List (List Char)) (u : List Char)
    (hu : u ∉ seen) :
    (dropDuplicatesByUrl seen l).find? (fun s => s.listing_url == u)
      = l.find? (fun s => s.listing_url == u) := by
  induction l generalizing seen with
  | nil => simp [dropDuplicatesByUrl]
  | cons row rest ih =>
    by_cases hm : row.listing_url ∈ seen
    · rw [dropDuplicatesByUrl, if_pos hm]
      have hne : (row.listing_url == u) = false := by
        simp only [beq_eq_false_iff_ne, ne_eq]
        intro hx
        exact hu (hx ▸ hm)
      rw [List.find?_cons_of_neg _ (by simp [hne])]
      exact ih seen hu
    · rw [dropDuplicatesByUrl, if_neg hm]
      by_cases he : row.listing_url = u
      · rw [List.find?_cons_of_pos _ (by simp [he]), List.find?_cons_of_pos _ (by simp [he])]
      · rw [List.find?_cons_of_neg _ (by simp [he]), List.find?_cons_of_neg _ (by simp [he])]
        exact ih _ (by simp [hu, Ne.symm he])

/-- C2 (counterexample): merging two one-row datasets whose rows share a
`listing_url` but have different spec identity keys drops the second row, so
the merge does not deduplicate by the identity key of the data model. -/
theorem c2_merge_ignores_identity_key :
    specIdentityKey c2RowA ≠ specIdentityKey c2RowB
    ∧ c2RowB ∈ ([[c2RowA], [c2RowB]] : List (List Row)).flatten
    ∧ c2RowB ∉ merge_csv_files [[c2RowA], [c2RowB]] true
    ∧ merge_csv_files [[c2RowA], [c2RowB]] true = [c2RowA] := by
  refine ⟨by decide, by decide, by decide, by decide⟩

/-- Auxiliary: in a list of rows with pairwise distinct urls, a url that does
occur occurs on exactly one row. -/
lemma countPUrlOfNodup (l : List Row) (u : List Char)
    (hnd : (l.map Row.listing_url).Nodup) (hex : ∃ x ∈ l, x.listing_url = u) :
    l.countP (fun s => s.listing_url == u) = 1 := by
  induction l with
  | nil => simp at hex
  | cons row rest ih =>
    simp only [List.map_cons, List.nodup_cons] at hnd
    by_cases he : row.listing_url = u
    · rw [List.countP_cons_of_pos _ _ (by simp [he])]
      have hz : rest.countP (fun s => s.listing_url == u) = 0 := by
        rw [List.countP_eq_zero]
        intro a ha
        simp only [beq_iff_eq]
        intro hau
        exact hnd.1 (List.mem_map.mpr ⟨a, ha, by rw [hau, he]⟩)
      omega
    · rw [List.countP_cons_of_neg _ _ (by simp [he])]
      refine ih hnd.2 ?_
      obtain ⟨x, hx, hxu⟩ := hex
      rcases List.mem_cons.mp hx with h | h
      · exact absurd (h ▸ hxu) he
      · exact ⟨x, h, hxu⟩

/-- C2 (amended): merge with dedup concatenates the datasets in input order and
removes duplicates by the `listing_url` column alone, keeping the first
occurrence field-for-field: the result is a sublist of the concatenation, its
urls are pairwise distinct, the row found first for any url is unchanged, and
every url present in the input appears on exactly one merged row. -/
theorem c2_merge_dedup_by_listing_url (dfs : List (List Row)) :
    (merge_csv_files dfs true).Sublist dfs.flatten
    ∧ ((merge_csv_files dfs true).map Row.listing_url).Nodup
    ∧ (∀ u, (merge_csv_files dfs true).find? (fun s => s.listing_url == u)
        = dfs.flatten.find? (fun s => s.listing_url == u))
    ∧ (∀ r, r ∈ dfs.flatten →
        (merge_csv_files dfs true).countP (fun s => s.listing_url == r.listing_url) = 1) := by
  have hdef : merge_csv_files dfs true = dropDuplicatesByUrl [] dfs.flatten := rfl
  refine ⟨?_, ?_, ?_, ?_⟩
  · rw [hdef]; exact dropDupByUrl_sublist _ _
  · rw [hdef]; exact dropDupByUrl_nodup _ _
  · intro u; rw [hdef]; exact dropDupByUrl_find _ _ _ (by simp)
  · intro r hr
    set u := r.listing_url with hu
    have hfind : (merge_csv_files dfs true).find? (fun s => s.listing_url == u)
        = dfs.flatten.find? (fun s => s.listing_url == u) := by
      rw [hdef]; exact dropDupByUrl_find _ _ _ (by simp)
    have hsome : (dfs.flatten.find? (fun s => s.listing_url == u)).isSome := by
      rw [List.find?_isSome]
      exact ⟨r, hr, by simp [hu]⟩
    obtain ⟨x, hx⟩ := Option.isSome_iff_exists.mp (hfind ▸ hsome)
    have hxmem : x ∈ merge_csv_files dfs true := List.mem_of_find?_eq_some hx
    have hxurl : x.listing_url = u := by
      have := List.find?_some hx
      simpa using this
    have hnd : ((merge_csv_files dfs true).map Row.listing_url).Nodup := by
      rw [hdef]; exact dropDupByUrl_nodup _ _
    exact countPUrlOfNodup _ _ hnd ⟨x, hxmem, hxurl⟩

/-- C2 (witness): instantiating the amended merge theorem on the two concrete
one-row datasets sharing a `listing_url`: the merged result carries that url on
exactly one row. -/
theorem c2_merge_dedup_witness :
    (merge_csv_files [[c2RowA], [c2RowB]] true).countP
      (fun s => s.listing_url == c2RowA.listing_url) = 1 :=
  (c2_merge_dedup_by_listing_url [[c2RowA], [c2RowB]]).2.2.2 c2RowA (by decide)

/-! ### C8 — `BaseScraper._load_existing_metadata` (src/scrapers/base_scraper.py:56-64)
and the dedup check of `EbayScraper.search_graded_cards`
(src/scrapers/ebay_scraper.py:151-221, skip check at 191-194) -/

/-- A value held in a metadata record cell: the scraper stores Python strings,
but `pd.read_csv` re-loads an all-numeric column as integers. -/
inductive PyVal where
  | str (s : List Char)
  | int (n : Nat)
deriving DecidableEq, Repr

/-- Python `==` between two such cell values: values of different types
(numpy integer vs. `str`) always compare unequal. -/
def pyEq : PyVal → PyVal → Bool
  | .str a, .str b => a = b
  | .int a, .int b => a = b
  | _, _ => false

/-- The metadata record appended by `search_graded_cards`; fields that do not
affect the dedup control flow (grade, price, timestamp, ...) are omitted. -/
structure MetaRecord where
  marketplace : List Char
  listing_id : PyVal
  card_name : List Char
  image_url : List Char
deriving DecidableEq, Repr

/-- The data `_extract_listing_data` produces for one listing (with
`listing_id` already defaulted to `"unknown"` when absent). -/
structure RawListing where
  listing_id : List Char
  title : List Char
  image_url : List Char
deriving DecidableEq, Repr

/-- The per-listing loop of `EbayScraper.search_graded_cards`
(src/scrapers/ebay_scraper.py:178-218): stop at `max_results`; skip a listing
when some metadata record has an equal `listing_id` (the check runs before the
image download); otherwise download (success given by the oracle `dl`) and on
success append the new record and count it. -/
def search_graded_cards_loop (dl : List Char → Bool) :
    List RawListing → List MetaRecord → Nat → Nat → List MetaRecord × Nat
  | [], metadata, count, _ => (metadata, count)
  | l :: rest, metadata, count, maxResults =>
    if maxResults ≤ count then (metadata, count)
    else if metadata.any (fun m => pyEq m.listing_id (PyVal.str l.listing_id)) then
      search_graded_cards_loop dl rest metadata count maxResults
    else if dl l.image_url then
      search_graded_cards_loop dl rest
        (metadata ++ [{ marketplace := (r"ebay").toList
                        listing_id := PyVal.str l.listing_id
                        card_name := l.title
                        image_url := l.image_url }])
        (count + 1) maxResults
    else
      search_graded_cards_loop dl rest metadata count maxResults

/-- Rendering of a cell value on `DataFrame.to_csv`. -/
def renderCell : PyVal → List Char
  | .str s => s
  | .int n => (toString n).toList

/-- Does `pd.read_csv` parse this CSV cell as an integer? (all digits). -/
def isIntCell (s : List Char) : Bool :=
  !s.isEmpty && s.all Char.isDigit

/-- Digit-string to number. -/
def parseNat (s : List Char) : Nat :=
  s.foldl (fun a c => a * 10 + (c.toNat - 48)) 0

/-- `BaseScraper._load_existing_metadata` (src/scrapers/base_scraper.py:56-64)
composed with the preceding `_save_metadata` round trip: the records come back
from `pd.read_csv` with the `listing_id` column re-typed as integers whenever
every cell of the column is numeric (pandas column dtype inference). -/
def load_existing_metadata (records : List MetaRecord) : List MetaRecord :=
  let cells := records.map (fun m => renderCell m.listing_id)
  if !records.isEmpty && cells.all isIntCell then
    records.map (fun m => { m with listing_id := PyVal.int (parseNat (renderCell m.listing_id)) })
  else records

/-- Download oracle for runs in which every image fetch succeeds. -/
def alwaysOk : List Char → Bool := fun _ => true

/-- The raw listing used to exhibit the C8 defect. -/
def c8Raw : RawListing :=
  { listing_id := (r"123").toList
    title := (r"Charizard PSA 10").toList
    image_url := (r"https://i.ebayimg.com/images/g/abc/s-l1600.jpg").toList }

/-- C8 (code bug): one run over a single listing stores one record, and re-running
over the same listing with the metadata still in memory is a no-op — but after
the persist/re-load round trip the all-numeric `listing_id` column comes back
as integers, the skip check's `int == str` comparison is always false, and the
second run appends a duplicate `(source, listing_id)` record, doubling the
cardinality. -/
theorem c8_rerun_after_reload_duplicates :
    (search_graded_cards_loop alwaysOk [c8Raw] [] 0 50).1.length = 1
    ∧ (search_graded_cards_loop alwaysOk [c8Raw]
        (search_graded_cards_loop alwaysOk [c8Raw] [] 0 50).1 0 50).1.length = 1
    ∧ (load_existing_metadata (search_graded_cards_loop alwaysOk [c8Raw] [] 0 50).1).map
        MetaRecord.listing_id = [PyVal.int 123]
    ∧ pyEq (PyVal.int 123) (PyVal.str ((r"123").toList)) = false
    ∧ (search_graded_cards_loop alwaysOk [c8Raw]
        (load_existing_metadata (search_graded_cards_loop alwaysOk [c8Raw] [] 0 50).1) 0 50).1.length = 2
    ∧ (search_graded_cards_loop alwaysOk [c8Raw]
        (load_existing_metadata (search_graded_cards_loop alwaysOk [c8Raw] [] 0 50).1) 0 50).1.map
        (fun m => (m.marketplace, renderCell m.listing_id))
      = [((r"ebay").toList, (r"123").toList), ((r"ebay").toList, (r"123").toList)] := by
  refine ⟨by decide, by decide, by decide, by decide, by decide, by decide⟩

/-! ### C4 — URL canonicalization:
`EbayCardScraper._get_high_res_url` (src/ebay_card_scraper.py:278-295) and the
rewrite in `EbayGradedCardsSpider.parse_listing_details`
(src/graded_cards_scraper/spiders/ebay_spider.py:171-185) -/

/-- `EbayCardScraper._get_high_res_url` (src/ebay_card_scraper.py:278-295):
five successive `str.replace` calls turning eBay thumbnail size tokens into
the `s-l1600.` token. -/
def get_high_res_url (url : List Char) : List Char :=
  let u1 := pyReplace ((r"s-l64.").toList) ((r"s-l1600.").toList) url
  let u2 := pyReplace ((r"s-l140.").toList) ((r"s-l1600.").toList) u1
  let u3 := pyReplace ((r"s-l225.").toList) ((r"s-l1600.").toList) u2
  let u4 := pyReplace ((r"s-l300.").toList) ((r"s-l1600.").toList) u3
  pyReplace ((r"s-l500.").toList) ((r"s-l1600.").toList) u4

/-- Does the list start with `s-l` followed by at least one digit?  This is a
match of the regex `s-l\d+` at the current position. -/
def slMatch : List Char → Bool
  | c1 :: c2 :: c3 :: d :: _ => c1 = 's' && c2 = '-' && c3 = 'l' && d.isDigit
  | _ => false

/-- Worker for `reSubSl`, structurally recursive.  State `0` scans normally;
states `3` and `2` silently consume the `-`/`l` of a matched `s-l`; state `1`
silently consumes the matched (maximal) digit run and then resumes scanning. -/
def reSubSlAux : Nat → List Char → List Char
  | _, [] => []
  | 1, c :: t =>
    if c.isDigit then reSubSlAux 1 t
    else if slMatch (c :: t) then (r"s-l1600").toList ++ reSubSlAux 3 t
    else c :: reSubSlAux 0 t
  | Nat.succ (Nat.succ n), _ :: t => reSubSlAux (Nat.succ n) t
  | 0, c :: t =>
    if slMatch (c :: t) then (r"s-l1600").toList ++ reSubSlAux 3 t
    else c :: reSubSlAux 0 t

/-- `re.sub(r's-l\d+', 's-l1600', url)`: scan left to right; at a match
consume `s-l` and the maximal digit run and emit `s-l1600`; otherwise keep the
character. -/
def reSubSl (t : List Char) : List Char := reSubSlAux 0 t

/-- State `1` consumes the digit run and then behaves like state `0`. -/
lemma reSubSlAux_one (t : List Char) :
    reSubSlAux 1 t = reSubSlAux 0 (t.dropWhile Char.isDigit) := by
  induction t with
  | nil => rfl
  | cons c t ih =>
    by_cases hc : c.isDigit
    · rw [reSubSlAux, if_pos hc, List.dropWhile_cons_of_pos hc]
      exact ih
    · rw [List.dropWhile_cons_of_neg hc]
      rw [reSubSlAux, if_neg hc]
      rw [reSubSlAux]

/-- Unfolding: a regex match at the head. -/
lemma reSubSl_cons_match (c : Char) (t : List Char) (h : slMatch (c :: t) = true) :
    reSubSl (c :: t)
      = (r"s-l1600").toList ++ reSubSl (((c :: t).drop 3).dropWhile Char.isDigit) := by
  show reSubSlAux 0 (c :: t) = _
  rw [reSubSlAux, if_pos h]
  congr 1
  match t with
  | t1 :: t2 :: t' =>
    show reSubSlAux 2 (t2 :: t') = _
    rw [show (2 : Nat) = Nat.succ (Nat.succ 0) from rfl]
    rw [reSubSlAux]
    show reSubSlAux 1 t' = _
    rw [reSubSlAux_one]
    rfl
  | [t1] =>
    show reSubSlAux 2 [] = _
    rfl
  | [] => rfl

/-- Unfolding: no regex match at the head. -/
lemma reSubSl_cons_nomatch (c : Char) (t : List Char) (h : slMatch (c :: t) = false) :
    reSubSl (c :: t) = c :: reSubSl t := by
  show reSubSlAux 0 (c :: t) = _
  rw [reSubSlAux, if_neg (by simp [h])]
  rfl

/-- The thumbnail rewrite of `parse_listing_details`
(src/graded_cards_scraper/spiders/ebay_spider.py:177-181): the `s-l\d+` regex
substitution followed by four `str.replace` calls on eBay's legacy
`$_N.JPG` size tokens. -/
def spider_high_res_url (url : List Char) : List Char :=
  let u1 := reSubSl url
  let u2 := pyReplace ((r"$_1.JPG").toList) ((r"$_57.JPG").toList) u1
  let u3 := pyReplace ((r"$_12.JPG").toList) ((r"$_57.JPG").toList) u2
  let u4 := pyReplace ((r"$_14.JPG").toList) ((r"$_57.JPG").toList) u3
  pyReplace ((r"$_35.JPG").toList) ((r"$_57.JPG").toList) u4

/-! ### C10 — image cap in `EbayGradedCardsSpider.parse_listing_details`
(src/graded_cards_scraper/spiders/ebay_spider.py:171-202) -/

/-- The item fields handled by `parse_listing_details`; fields it does not
touch (price, grade, ...) are omitted. -/
structure SpiderItem where
  title : List Char
  listing_id : Option (List Char)
  image_urls : List (List Char)
deriving DecidableEq, Repr

/-- Lines 172-186: convert every non-empty scraped url to high resolution and
collect them without duplicates, in order. -/
def collectHighResUrls (image_urls : List (List Char)) : List (List Char) :=
  image_urls.foldl
    (fun acc img =>
      if img ≠ [] then
        let h := spider_high_res_url img
        if h ∉ acc then acc ++ [h] else acc
      else acc) []

/-- Lines 187-195: replace the item's urls by the collected high-resolution
urls when any were found, otherwise keep the thumbnail fallback. -/
def updatedItem (item : SpiderItem) (image_urls : List (List Char)) : SpiderItem :=
  let high_res_urls := collectHighResUrls image_urls
  if high_res_urls ≠ [] then { item with image_urls := high_res_urls } else item

/-- Tail of `EbayGradedCardsSpider.parse_listing_details`
(src/graded_cards_scraper/spiders/ebay_spider.py:171-202): update the item
with the high-resolution urls scraped from the detail page and yield it,
except that an item left with more than 5 image urls is dropped (`return`
without yield). -/
def parse_listing_details (item : SpiderItem) (image_urls : List (List Char)) :
    Option SpiderItem :=
  let item' := updatedItem item image_urls
  if 5 < item'.image_urls.length then none else some item'

/-- C10: a listing is yielded iff it ends up with at most 5 image urls; with
more than 5 it is silently dropped, and in that case nothing is yielded at
all. -/
theorem c10_image_cap (item : SpiderItem) (image_urls : List (List Char)) :
    (parse_listing_details item image_urls = none
      ↔ 5 < (updatedItem item image_urls).image_urls.length)
    ∧ (¬ 5 < (updatedItem item image_urls).image_urls.length →
        parse_listing_details item image_urls = some (updatedItem item image_urls)) := by
  constructor
  · unfold parse_listing_details
    by_cases h : 5 < (updatedItem item image_urls).image_urls.length
    · simp [h]
    · simp [h]
  · intro h
    unfold parse_listing_details
    simp [h]

/-- C10 (witness): a concrete detail page with six distinct images makes the
updated item exceed the cap and the listing is dropped. -/
theorem c10_image_cap_witness :
    parse_listing_details
      { title := (r"Charizard PSA 10").toList, listing_id := some ((r"123").toList),
        image_urls := [(r"https://i.ebayimg.com/a/s-l140.jpg").toList] }
      [(r"https://i.ebayimg.com/a/s-l64.jpg").toList,
       (r"https://i.ebayimg.com/b/s-l64.jpg").toList,
       (r"https://i.ebayimg.com/c/s-l64.jpg").toList,
       (r"https://i.ebayimg.com/d/s-l64.jpg").toList,
       (r"https://i.ebayimg.com/e/s-l64.jpg").toList,
       (r"https://i.ebayimg.com/f/s-l64.jpg").toList] = none := by
  have h := c10_image_cap
    { title := (r"Charizard PSA 10").toList, listing_id := some ((r"123").toList),
      image_urls := [(r"https://i.ebayimg.com/a/s-l140.jpg").toList] }
    [(r"https://i.ebayimg.com/a/s-l64.jpg").toList,
     (r"https://i.ebayimg.com/b/s-l64.jpg").toList,
     (r"https://i.ebayimg.com/c/s-l64.jpg").toList,
     (r"https://i.ebayimg.com/d/s-l64.jpg").toList,
     (r"https://i.ebayimg.com/e/s-l64.jpg").toList,
     (r"https://i.ebayimg.com/f/s-l64.jpg").toList]
  exact h.1.mpr (by decide)

/-! ### Occurrence analysis for `pyReplace` (towards C4) -/

/-- Occurrences lift over `cons`. -/
lemma isInfixCons (q t : List Char) (c : Char) (h : q <:+: t) : q <:+: c :: t := by
  obtain ⟨s, t', rfl⟩ := h
  exact ⟨c :: s, t', rfl⟩

/-- Occurrences lift over `drop`. -/
lemma isInfixOfDrop (q t : List Char) (n : Nat) (h : q <:+: t.drop n) : q <:+: t :=
  h.trans (List.drop_suffix n t).isInfix

/-- A pattern with no occurrence is left alone by `pyReplace`. -/
lemma pyReplaceOfNoOccur (pat rep : List Char) (hp : pat ≠ []) :
    ∀ t, ¬ pat <:+: t → pyReplace pat rep t = t := by
  intro t
  induction t with
  | nil => intro _; rfl
  | cons c t ih =>
    intro h
    have hm : ¬ (pat ≠ [] ∧ pat.isPrefixOf (c :: t) = true) := by
      rintro ⟨-, hpre⟩
      exact h ((isPrefixOfIff pat (c :: t)).mp hpre).isInfix
    rw [pyReplace_cons_neg pat rep c t hm]
    rw [ih (fun ho => h (isInfixCons pat t c ho))]

/-- Every prefix of a `pyReplace` output is a prefix of the input, or it
reaches into an emitted replacement and so contains the replacement's first
character past a copied part of the input. -/
lemma prefixOfPyReplace (pat rep : List Char) (hr : rep ≠ []) :
    ∀ t q, q <+: pyReplace pat rep t →
      q <+: t ∨ ∃ k m, q = k ++ m ∧ m ≠ [] ∧ m.head? = rep.head? := by
  intro t
  induction t with
  | nil =>
    intro q h
    left
    simpa [pyReplace_nil] using h
  | cons c t ih =>
    intro q h
    by_cases hm : pat ≠ [] ∧ pat.isPrefixOf (c :: t) = true
    · rw [pyReplace_cons_pos pat rep c t hm.1 hm.2] at h
      by_cases hq : q = []
      · left; simp [hq]
      · right
        refine ⟨[], q, by simp, hq, ?_⟩
        match q, hq, rep, hr with
        | q0 :: q', _, r0 :: r', _ =>
          obtain ⟨w, hw⟩ := h
          simp only [List.cons_append, List.cons.injEq] at hw
          simp [hw.1]
    · rw [pyReplace_cons_neg pat rep c t hm] at h
      by_cases hq : q = []
      · left; simp [hq]
      · obtain ⟨q', rfl, hq'⟩ := prefixConsInv q _ c h hq
        rcases ih q' hq' with h1 | ⟨k, m, hkm, hm1, hm2⟩
        · left
          obtain ⟨w, hw⟩ := h1
          exact ⟨w, by simp [hw]⟩
        · right
          exact ⟨c :: k, m, by simp [hkm], hm1, hm2⟩

/-- Core occurrence lemma: under the no-reintroduction side conditions between
an interest pattern `q` and the replacement `rep`, the output of
`pyReplace pat rep` never contains `q` — with no hypothesis on the input when
`q` is the replaced pattern itself, and assuming `q` was absent from the input
otherwise. -/
lemma noOccurPyReplace (pat rep q : List Char)
    (hp : pat ≠ []) (hq : q ≠ []) (hr : rep ≠ [])
    (hqr : ¬ q <:+: rep)
    (hb : ∀ q1 q2, q = q1 ++ q2 → q1 ≠ [] → q2 ≠ [] → ¬ q1 <:+ rep)
    (hc : ∀ ch ∈ q.tail, rep.head? ≠ some ch) :
    ∀ n t, t.length ≤ n → (q = pat ∨ ¬ q <:+: t) → ¬ q <:+: pyReplace pat rep t := by
  intro n
  induction n with
  | zero =>
    intro t ht _ hocc
    have : t = [] := List.length_eq_zero.mp (Nat.le_zero.mp ht)
    subst this
    exact hq (isInfixNil q (by simpa [pyReplace_nil] using hocc))
  | succ n ih =>
    intro t ht harg hocc
    match t with
    | [] => exact hq (isInfixNil q (by simpa [pyReplace_nil] using hocc))
    | c :: t' =>
      by_cases hm : pat.isPrefixOf (c :: t') = true
      · rw [pyReplace_cons_pos pat rep c t' hp hm] at hocc
        rcases isInfixAppendSplit q rep _ hocc with h1 | h1 | ⟨q1, q2, hsplit, hq1, hq2, hq1s, -⟩
        · exact hqr h1
        · refine ih ((c :: t').drop pat.length) ?_ ?_ h1
          · have hp1 : 0 < pat.length := List.length_pos.mpr hp
            simp only [List.length_drop, List.length_cons]
            simp only [List.length_cons] at ht
            omega
          · rcases harg with h2 | h2
            · exact Or.inl h2
            · exact Or.inr (fun ho => h2 (isInfixOfDrop q _ _ ho))
        · exact hb q1 q2 hsplit hq1 hq2 hq1s
      · have hcond : ¬ (pat ≠ [] ∧ pat.isPrefixOf (c :: t') = true) := by
          rintro ⟨-, h2⟩
          exact hm h2
        rw [pyReplace_cons_neg pat rep c t' hcond] at hocc
        rcases isInfixConsSplit q c _ hocc with h1 | h1
        · obtain ⟨q', rfl, hq'⟩ := prefixConsInv q _ c h1 hq
          rcases prefixOfPyReplace pat rep hr t' q' hq' with h2 | ⟨k, m, hkm, hm1, hm2⟩
          · have hqpre : (c :: q') <+: (c :: t') := by
              obtain ⟨w, hw⟩ := h2
              exact ⟨w, by simp [hw]⟩
            rcases harg with h3 | h3
            · exact hm (by rw [← h3]; exact (isPrefixOfIff _ _).mpr hqpre)
            · exact h3 hqpre.isInfix
          · match m, hm1 with
            | m0 :: m', _ =>
              refine hc m0 ?_ hm2.symm
              show m0 ∈ q'
              rw [hkm]
              exact List.mem_append_right k (by simp)
        · refine ih t' ?_ ?_ h1
          · simp only [List.length_cons] at ht
            omega
          · rcases harg with h2 | h2
            · exact Or.inl h2
            · exact Or.inr (fun ho => h2 (isInfixCons q t' c ho))

/-- Discharges the straddle condition of `noOccurPyReplace` when the
replacement's last character does not occur before the end of `q`. -/
lemma straddleCondOfLast (q rep : List Char) (c : Char)
    (hlast : rep.getLast? = some c) (hnot : c ∉ q.dropLast) (hqr : ¬ q <:+: rep) :
    ∀ q1 q2, q = q1 ++ q2 → q1 ≠ [] → q2 ≠ [] → ¬ q1 <:+ rep := by
  intro q1 q2 hsplit h1 h2 hs
  have hlast1 : q1.getLast? = some c := by
    rw [getLastOfSuffixPart rep q1 hs h1]
    exact hlast
  have hmemq1 : c ∈ q1 := by
    obtain ⟨hne, hgl⟩ := List.mem_getLast?_eq_getLast (by rw [hlast1]; rfl)
    rw [hgl]
    exact List.getLast_mem hne
  apply hnot
  rw [hsplit, List.dropLast_append_of_ne_nil q1 h2]
  exact List.mem_append_left _ hmemq1

/-- The five thumbnail tokens replaced by `_get_high_res_url`. -/
def slP1 : List Char := (r"s-l64.").toList
def slP2 : List Char := (r"s-l140.").toList
def slP3 : List Char := (r"s-l225.").toList
def slP4 : List Char := (r"s-l300.").toList
def slP5 : List Char := (r"s-l500.").toList

/-- The replacement token of `_get_high_res_url`. -/
def slRep : List Char := (r"s-l1600.").toList

/-- `get_high_res_url` written through the named tokens. -/
lemma get_high_res_url_eq (url : List Char) :
    get_high_res_url url
      = pyReplace slP5 slRep (pyReplace slP4 slRep (pyReplace slP3 slRep
          (pyReplace slP2 slRep (pyReplace slP1 slRep url)))) := rfl

/-- Packaged form of `noOccurPyReplace` with the straddle condition reduced to
a last-character check. -/
lemma noOccurStage (pat rep q : List Char) (hp : pat ≠ []) (hq : q ≠ []) (hr : rep ≠ [])
    (hqr : ¬ q <:+: rep) (c : Char) (hlast : rep.getLast? = some c) (hnot : c ∉ q.dropLast)
    (hc : ∀ ch ∈ q.tail, rep.head? ≠ some ch) (t : List Char)
    (harg : q = pat ∨ ¬ q <:+: t) : ¬ q <:+: pyReplace pat rep t :=
  noOccurPyReplace pat rep q hp hq hr hqr (straddleCondOfLast q rep c hlast hnot hqr) hc
    t.length t le_rfl harg

/-- After `_get_high_res_url`, none of the five thumbnail tokens occurs in the
output. -/
lemma getHighResClean (u : List Char) :
    ¬ slP1 <:+: get_high_res_url u ∧ ¬ slP2 <:+: get_high_res_url u
    ∧ ¬ slP3 <:+: get_high_res_url u ∧ ¬ slP4 <:+: get_high_res_url u
    ∧ ¬ slP5 <:+: get_high_res_url u := by
  rw [get_high_res_url_eq]
  set u1 := pyReplace slP1 slRep u with hu1
  set u2 := pyReplace slP2 slRep u1 with hu2
  set u3 := pyReplace slP3 slRep u2 with hu3
  set u4 := pyReplace slP4 slRep u3 with hu4
  have h11 : ¬ slP1 <:+: u1 := noOccurStage slP1 slRep slP1 (by decide) (by decide)
    (by decide) (by decide) '.' (by decide) (by decide) (by decide) u (Or.inl rfl)
  have h12 : ¬ slP1 <:+: u2 := noOccurStage slP2 slRep slP1 (by decide) (by decide)
    (by decide) (by decide) '.' (by decide) (by decide) (by decide) u1 (Or.inr h11)
  have h13 : ¬ slP1 <:+: u3 := noOccurStage slP3 slRep slP1 (by decide) (by decide)
    (by decide) (by decide) '.' (by decide) (by decide) (by decide) u2 (Or.inr h12)
  have h14 : ¬ slP1 <:+: u4 := noOccurStage slP4 slRep slP1 (by decide) (by decide)
    (by decide) (by decide) '.' (by decide) (by decide) (by decide) u3 (Or.inr h13)
  have h15 : ¬ slP1 <:+: pyReplace slP5 slRep u4 := noOccurStage slP5 slRep slP1 (by decide)
    (by decide) (by decide) (by decide) '.' (by decide) (by decide) (by decide) u4 (Or.inr h14)
  have h22 : ¬ slP2 <:+: u2 := noOccurStage slP2 slRep slP2 (by decide) (by decide)
    (by decide) (by decide) '.' (by decide) (by decide) (by decide) u1 (Or.inl rfl)
  have h23 : ¬ slP2 <:+: u3 := noOccurStage slP3 slRep slP2 (by decide) (by decide)
    (by decide) (by decide) '.' (by decide) (by decide) (by decide) u2 (Or.inr h22)
  have h24 : ¬ slP2 <:+: u4 := noOccurStage slP4 slRep slP2 (by decide) (by decide)
    (by decide) (by decide) '.' (by decide) (by decide) (by decide) u3 (Or.inr h23)
  have h25 : ¬ slP2 <:+: pyReplace slP5 slRep u4 := noOccurStage slP5 slRep slP2 (by decide)
    (by decide) (by decide) (by decide) '.' (by decide) (by decide) (by decide) u4 (Or.inr h24)
  have h33 : ¬ slP3 <:+: u3 := noOccurStage slP3 slRep slP3 (by decide) (by decide)
    (by decide) (by decide) '.' (by decide) (by decide) (by decide) u2 (Or.inl rfl)
  have h34 : ¬ slP3 <:+: u4 := noOccurStage slP4 slRep slP3 (by decide) (by decide)
    (by decide) (by decide) '.' (by decide) (by decide) (by decide) u3 (Or.inr h33)
  have h35 : ¬ slP3 <:+: pyReplace slP5 slRep u4 := noOccurStage slP5 slRep slP3 (by decide)
    (by decide) (by decide) (by decide) '.' (by decide) (by decide) (by decide) u4 (Or.inr h34)
  have h44 : ¬ slP4 <:+: u4 := noOccurStage slP4 slRep slP4 (by decide) (by decide)
    (by decide) (by decide) '.' (by decide) (by decide) (by decide) u3 (Or.inl rfl)
  have h45 : ¬ slP4 <:+: pyReplace slP5 slRep u4 := noOccurStage slP5 slRep slP4 (by decide)
    (by decide) (by decide) (by decide) '.' (by decide) (by decide) (by decide) u4 (Or.inr h44)
  have h55 : ¬ slP5 <:+: pyReplace slP5 slRep u4 := noOccurStage slP5 slRep slP5 (by decide)
    (by decide) (by decide) (by decide) '.' (by decide) (by decide) (by decide) u4 (Or.inl rfl)
  exact ⟨h15, h25, h35, h45, h55⟩

/-- Idempotence of `_get_high_res_url`: all five tokens are gone after one
pass, so a second pass copies its input. -/
lemma getHighResIdem (u : List Char) :
    get_high_res_url (get_high_res_url u) = get_high_res_url u := by
  obtain ⟨h1, h2, h3, h4, h5⟩ := getHighResClean u
  rw [get_high_res_url_eq (get_high_res_url u)]
  rw [pyReplaceOfNoOccur slP1 slRep (by decide) _ h1]
  rw [pyReplaceOfNoOccur slP2 slRep (by decide) _ h2]
  rw [pyReplaceOfNoOccur slP3 slRep (by decide) _ h3]
  rw [pyReplaceOfNoOccur slP4 slRep (by decide) _ h4]
  rw [pyReplaceOfNoOccur slP5 slRep (by decide) _ h5]

/-! ### Occurrence analysis for the spider rewrite (towards C4) -/

/-- Destructuring a regex match at the head. -/
lemma slMatchDestruct (l : List Char) (h : slMatch l = true) :
    ∃ d r, l = 's' :: '-' :: 'l' :: d :: r ∧ d.isDigit = true := by
  match l with
  | c1 :: c2 :: c3 :: d :: r =>
    simp only [slMatch, Bool.and_eq_true, decide_eq_true_eq] at h
    exact ⟨d, r, by rw [h.1.1.1, h.1.1.2, h.1.2], h.2⟩
  | [] => simp [slMatch] at h
  | [c1] => simp [slMatch] at h
  | [c1, c2] => simp [slMatch] at h
  | [c1, c2, c3] => simp [slMatch] at h

/-- A regex match starts with `s`. -/
lemma slMatchHead (l : List Char) (c : Char) (h : slMatch (c :: l) = true) : c = 's' := by
  obtain ⟨d, r, he, -⟩ := slMatchDestruct (c :: l) h
  exact (List.cons.injEq .. ▸ he).1

/-- The property that every `s-l\d+` match in a string carries exactly the
digit run `1600` — the strings on which `reSubSl` is the identity. -/
def NoThumb (t : List Char) : Prop :=
  ∀ x y, t = x ++ y → slMatch y = true →
    (y.drop 3).takeWhile Char.isDigit = (r"1600").toList

/-- `NoThumb` passes to tail-parts. -/
lemma noThumbSuffixClosed (l x0 rest : List Char) (h : NoThumb l) (hx : l = x0 ++ rest) :
    NoThumb rest := by
  intro x y hxy hm
  exact h (x0 ++ x) y (by rw [hx, hxy, List.append_assoc]) hm

/-- Destructuring a `takeWhile` value. -/
lemma takeWhileConsDestruct (p : Char → Bool) (l : List Char) (a : Char) (s : List Char)
    (h : l.takeWhile p = a :: s) :
    ∃ l', l = a :: l' ∧ p a = true ∧ l'.takeWhile p = s := by
  match l with
  | [] => simp [List.takeWhile] at h
  | c :: l' =>
    by_cases hc : p c
    · rw [List.takeWhile_cons_of_pos hc] at h
      obtain ⟨h1, h2⟩ := List.cons.injEq .. ▸ h
      exact ⟨l', by rw [h1], h1 ▸ hc, h2⟩
    · rw [List.takeWhile_cons_of_neg hc] at h
      simp at h

/-- If `takeWhile` takes nothing, `dropWhile` drops nothing. -/
lemma dropWhileOfTakeWhileNil (p : Char → Bool) (l : List Char)
    (h : l.takeWhile p = []) : l.dropWhile p = l := by
  match l with
  | [] => rfl
  | c :: l' =>
    by_cases hc : p c
    · rw [List.takeWhile_cons_of_pos hc] at h
      simp at h
    · exact List.dropWhile_cons_of_neg hc

/-- If the head fails the predicate (or there is none), `takeWhile` is empty. -/
lemma takeWhileNilOfHead (p : Char → Bool) (l : List Char)
    (h : ∀ c0, l.head? = some c0 → p c0 = false) : l.takeWhile p = [] := by
  match l with
  | [] => rfl
  | c :: l' => exact List.takeWhile_cons_of_neg (by simp [h c rfl])

/-- The head of a `dropWhile` output fails the predicate. -/
lemma dropWhileHeadNot (p : Char → Bool) (l : List Char) (c0 : Char) (l' : List Char)
    (h : l.dropWhile p = c0 :: l') : p c0 = false := by
  induction l with
  | nil => simp [List.dropWhile] at h
  | cons c t ih =>
    by_cases hc : p c
    · rw [List.dropWhile_cons_of_pos hc] at h
      exact ih h
    · rw [List.dropWhile_cons_of_neg hc] at h
      obtain ⟨h1, -⟩ := List.cons.injEq .. ▸ h
      subst h1
      simpa using hc

/-- The head of a non-empty `reSubSl` output is the input head or the start of
an emitted replacement. -/
lemma reSubSlHeadCases (t : List Char) (c0 : Char) (l : List Char)
    (h : reSubSl t = c0 :: l) : t.head? = some c0 ∨ c0 = 's' := by
  match t with
  | [] => simp [reSubSl, reSubSlAux] at h
  | c :: t' =>
    by_cases hm : slMatch (c :: t') = true
    · rw [reSubSl_cons_match c t' hm] at h
      right
      exact ((List.cons.injEq .. ▸ h).1).symm
    · rw [reSubSl_cons_nomatch c t' (by simpa using hm)] at h
      left
      obtain ⟨h1, -⟩ := List.cons.injEq .. ▸ h
      rw [h1]
      rfl

/-- A non-`s` head of a `reSubSl` output was copied from the input. -/
lemma reSubSlKeptInv (t : List Char) (c0 : Char) (l : List Char)
    (h : reSubSl t = c0 :: l) (hc : c0 ≠ 's') :
    ∃ t₂, t = c0 :: t₂ ∧ l = reSubSl t₂ := by
  match t with
  | [] => simp [reSubSl, reSubSlAux] at h
  | c :: t' =>
    by_cases hm : slMatch (c :: t') = true
    · rw [reSubSl_cons_match c t' hm] at h
      exact absurd ((List.cons.injEq .. ▸ h).1).symm hc
    · rw [reSubSl_cons_nomatch c t' (by simpa using hm)] at h
      obtain ⟨h1, h2⟩ := List.cons.injEq .. ▸ h
      exact ⟨t', by rw [h1], h2.symm⟩

/-- `dropWhile` never lengthens a list. -/
lemma lengthDropWhileLe (p : Char → Bool) (l : List Char) :
    (l.dropWhile p).length ≤ l.length := by
  induction l with
  | nil => simp
  | cons c t ih =>
    by_cases hc : p c
    · rw [List.dropWhile_cons_of_pos hc]
      simp only [List.length_cons]
      omega
    · rw [List.dropWhile_cons_of_neg hc]

/-- If `takeWhile` takes nothing, the head (if any) fails the predicate. -/
lemma headNotOfTakeWhileNil (p : Char → Bool) (l : List Char)
    (h : l.takeWhile p = []) : ∀ c0, l.head? = some c0 → p c0 = false := by
  intro c0 h0
  match l, h0 with
  | c :: l', h0 =>
    have hc : c = c0 := by simpa using h0
    subst hc
    by_cases hp : p c
    · rw [List.takeWhile_cons_of_pos hp] at h
      simp at h
    · simpa using hp

/-- Destructuring the digit run `1600`. -/
lemma runDestruct (l : List Char) (h : l.takeWhile Char.isDigit = (r"1600").toList) :
    ∃ r3, l = '1' :: '6' :: '0' :: '0' :: r3 ∧ r3.takeWhile Char.isDigit = [] := by
  obtain ⟨l1, he1, -, h1⟩ := takeWhileConsDestruct Char.isDigit l '1' _ h
  obtain ⟨l2, he2, -, h2⟩ := takeWhileConsDestruct Char.isDigit l1 '6' _ h1
  obtain ⟨l3, he3, -, h3⟩ := takeWhileConsDestruct Char.isDigit l2 '0' _ h2
  obtain ⟨l4, he4, -, h4⟩ := takeWhileConsDestruct Char.isDigit l3 '0' _ h3
  exact ⟨l4, by rw [he1, he2, he3, he4], h4⟩

/-- Dropping the digit run `1600`. -/
lemma runDrop (r3 : List Char) (h3 : r3.takeWhile Char.isDigit = []) :
    ('1' :: '6' :: '0' :: '0' :: r3).dropWhile Char.isDigit = r3 := by
  rw [List.dropWhile_cons_of_pos (by decide), List.dropWhile_cons_of_pos (by decide),
    List.dropWhile_cons_of_pos (by decide), List.dropWhile_cons_of_pos (by decide)]
  exact dropWhileOfTakeWhileNil Char.isDigit r3 h3

/-- On a `NoThumb` string, the regex substitution is the identity. -/
lemma reSubSlOfNoThumb : ∀ n t, t.length ≤ n → NoThumb t → reSubSl t = t := by
  intro n
  induction n with
  | zero =>
    intro t ht _
    have : t = [] := List.length_eq_zero.mp (Nat.le_zero.mp ht)
    subst this
    rfl
  | succ n ih =>
    intro t ht hnt
    match t with
    | [] => rfl
    | c :: t' =>
      by_cases hm : slMatch (c :: t') = true
      · obtain ⟨d, r0, he, hd⟩ := slMatchDestruct _ hm
        have hrun := hnt [] (c :: t') (by simp) hm
        rw [he] at hrun
        simp only [List.drop_succ_cons, List.drop_zero] at hrun
        obtain ⟨r3, hdr, h3⟩ := runDestruct (d :: r0) hrun
        rw [reSubSl_cons_match c t' hm, he]
        simp only [List.drop_succ_cons, List.drop_zero]
        rw [hdr, runDrop r3 h3]
        have hsplit : c :: t' = (r"s-l1600").toList ++ r3 := by
          rw [he, hdr]
          rfl
        have hlen : r3.length ≤ n := by
          have hlc : (c :: t').length = 7 + r3.length := by
            rw [hsplit]
            simp only [List.length_append, List.length_cons]
            have h7 : ((r"s-l1600").toList).length = 7 := rfl
            omega
          simp only [List.length_cons] at ht hlc
          omega
        rw [ih r3 hlen (noThumbSuffixClosed _ _ _ hnt hsplit)]
        rfl
      · rw [reSubSl_cons_nomatch c t' (by simpa using hm)]
        have hlen : t'.length ≤ n := by
          simp only [List.length_cons] at ht
          omega
        rw [ih t' hlen (noThumbSuffixClosed _ [c] _ hnt rfl)]

/-- The output of the regex substitution is always `NoThumb`: every remaining
(or emitted) `s-l` digit token carries exactly the run `1600`. -/
lemma noThumbReSubSl : ∀ n u, u.length ≤ n → NoThumb (reSubSl u) := by
  intro n
  induction n with
  | zero =>
    intro u hu
    have : u = [] := List.length_eq_zero.mp (Nat.le_zero.mp hu)
    subst this
    intro x y hxy hm
    have hy : y = [] := by
      have := congrArg List.length hxy
      simp only [reSubSl, reSubSlAux, List.length_nil, List.length_append] at this
      exact List.length_eq_zero.mp (by omega)
    rw [hy] at hm
    simp [slMatch] at hm
  | succ n ih =>
    intro u hu
    match u with
    | [] =>
      intro x y hxy hm
      have hy : y = [] := by
        have := congrArg List.length hxy
        simp only [reSubSl, reSubSlAux, List.length_nil, List.length_append] at this
        exact List.length_eq_zero.mp (by omega)
      rw [hy] at hm
      simp [slMatch] at hm
    | c :: t =>
      by_cases hm : slMatch (c :: t) = true
      · rw [reSubSl_cons_match c t hm]
        set rest := (((c :: t).drop 3).dropWhile Char.isDigit) with hrest
        have hlenrest : rest.length ≤ n := by
          have h1 := lengthDropWhileLe Char.isDigit ((c :: t).drop 3)
          rw [← hrest] at h1
          simp only [List.length_drop, List.length_cons] at h1
          simp only [List.length_cons] at hu
          omega
        have hw : NoThumb (reSubSl rest) := ih rest hlenrest
        have hwhead : ∀ c0, (reSubSl rest).head? = some c0 → c0.isDigit = false := by
          intro c0 h0
          match hrw : reSubSl rest, h0 with
          | a :: l, h0 =>
            have ha : a = c0 := by simpa using h0
            subst ha
            rcases reSubSlHeadCases rest a l hrw with h1 | h1
            · match hrest2 : rest, h1 with
              | a2 :: r2, h1 =>
                have ha2 : a2 = a := by simpa using h1
                subst ha2
                exact dropWhileHeadNot Char.isDigit _ _ _ hrest.symm
            · rw [h1]
              decide
        intro x y hxy hmy
        rcases List.append_eq_append_iff.mp hxy.symm with ⟨m, hsl, hy⟩ | ⟨m, hx, hwmy⟩
        · by_cases hm0 : m = []
          · subst hm0
            simp only [List.nil_append] at hy
            exact hw [] y (by simp [hy]) hmy
          · match m, hm0 with
            | mh :: m', _ =>
              have hmh : mh = 's' := by
                apply slMatchHead (m' ++ reSubSl rest) mh
                have hycons : y = mh :: (m' ++ reSubSl rest) := by simpa using hy
                rw [← hycons]
                exact hmy
              subst hmh
              have hxnil : x = [] := by
                match x, hsl with
                | [], _ => rfl
                | x0 :: x'', hsl =>
                  exfalso
                  have htl : ((r"s-l1600").toList).tail = x'' ++ 's' :: m' := by
                    rw [hsl]
                    rfl
                  have hmem : 's' ∈ ((r"s-l1600").toList).tail := by
                    rw [htl]
                    exact List.mem_append_right x'' (by simp)
                  simpa using hmem
              subst hxnil
              simp only [List.nil_append] at hsl
              have hyfull : y = (r"s-l1600").toList ++ reSubSl rest := by
                rw [hy, ← hsl]
              rw [hyfull]
              show (('1' :: '6' :: '0' :: '0' :: reSubSl rest).takeWhile Char.isDigit)
                = (r"1600").toList
              rw [List.takeWhile_cons_of_pos (by decide), List.takeWhile_cons_of_pos (by decide),
                List.takeWhile_cons_of_pos (by decide), List.takeWhile_cons_of_pos (by decide)]
              rw [takeWhileNilOfHead Char.isDigit (reSubSl rest) hwhead]
              rfl
        · exact hw m y hwmy hmy
      · rw [reSubSl_cons_nomatch c t (by simpa using hm)]
        have hw : NoThumb (reSubSl t) := ih t (by simp only [List.length_cons] at hu; omega)
        intro x y hxy hmy
        match x, hxy with
        | x0 :: x', hxy =>
          have h2 : reSubSl t = x' ++ y := by
            have hx2 := hxy
            simp only [List.cons_append, List.cons.injEq] at hx2
            exact hx2.2
          exact hw x' y h2 hmy
        | [], hxy =>
          exfalso
          simp only [List.nil_append] at hxy
          obtain ⟨d, r, hy, hd⟩ := slMatchDestruct y hmy
          rw [← hxy] at hy
          obtain ⟨hc, hout⟩ := List.cons.injEq .. ▸ hy
          obtain ⟨t2, ht2, hl2⟩ := reSubSlKeptInv t '-' _ hout (by decide)
          obtain ⟨t3, ht3, hl3⟩ := reSubSlKeptInv t2 'l' _ hl2.symm (by decide)
          have hdne : d ≠ 's' := by
            intro hds
            rw [hds] at hd
            simp at hd
          obtain ⟨t4, ht4, -⟩ := reSubSlKeptInv t3 d _ hl3.symm hdne
          apply hm
          rw [hc, ht2, ht3, ht4]
          simp [slMatch, hd]

/-- A pattern whose head differs from the text head is not a prefix. -/
lemma notPrefixOfHeadNe (pat : List Char) (h : Char) (c : Char) (l : List Char)
    (hh : pat.head? = some h) (hne : h ≠ c) : pat.isPrefixOf (c :: l) = false := by
  match pat, hh with
  | p0 :: pat', hh =>
    have hp0 : p0 = h := by simpa using hh
    subst hp0
    simp [List.isPrefixOf, hne]

/-- A replace step at a character the pattern cannot start with copies it. -/
lemma pyReplaceKeep (pat rep : List Char) (h : Char) (c : Char) (l : List Char)
    (hh : pat.head? = some h) (hne : h ≠ c) :
    pyReplace pat rep (c :: l) = c :: pyReplace pat rep l := by
  apply pyReplace_cons_neg
  rintro ⟨-, hpre⟩
  rw [notPrefixOfHeadNe pat h c l hh hne] at hpre
  exact Bool.false_ne_true hpre

/-- The head of a non-empty `pyReplace` output is the input head or the
replacement head. -/
lemma pyReplaceHeadCases (pat rep : List Char) (hr : rep ≠ []) (t : List Char)
    (c0 : Char) (l : List Char) (h : pyReplace pat rep t = c0 :: l) :
    t.head? = some c0 ∨ rep.head? = some c0 := by
  match t with
  | [] => simp [pyReplace_nil] at h
  | c :: t' =>
    by_cases hm : pat ≠ [] ∧ pat.isPrefixOf (c :: t') = true
    · rw [pyReplace_cons_pos pat rep c t' hm.1 hm.2] at h
      right
      match rep, hr with
      | r0 :: rep', _ =>
        have : r0 = c0 := by
          simpa using (List.cons.injEq .. ▸ h).1
        rw [← this]
        rfl
    · rw [pyReplace_cons_neg pat rep c t' hm] at h
      left
      obtain ⟨h1, -⟩ := List.cons.injEq .. ▸ h
      rw [h1]
      rfl

/-- An output head that the replacement cannot produce was copied, and the
rest of the output is the replace of the rest of the input. -/
lemma pyReplaceKeptInv (pat rep : List Char) (hr : rep ≠ []) (t : List Char)
    (c0 : Char) (l : List Char) (h : pyReplace pat rep t = c0 :: l)
    (hrh : rep.head? ≠ some c0) :
    ∃ t₂, t = c0 :: t₂ ∧ l = pyReplace pat rep t₂ := by
  match t with
  | [] => simp [pyReplace_nil] at h
  | c :: t' =>
    by_cases hm : pat ≠ [] ∧ pat.isPrefixOf (c :: t') = true
    · exfalso
      rw [pyReplace_cons_pos pat rep c t' hm.1 hm.2] at h
      apply hrh
      match rep, hr with
      | r0 :: rep', _ =>
        have : r0 = c0 := by
          simpa using (List.cons.injEq .. ▸ h).1
        rw [← this]
        rfl
    · rw [pyReplace_cons_neg pat rep c t' hm] at h
      obtain ⟨h1, h2⟩ := List.cons.injEq .. ▸ h
      exact ⟨t', by rw [h1], h2.symm⟩

/-- `NoThumb` is preserved by the `$_N.JPG` replaces: both the pattern and the
replacement start with `$` and contain no `s`, so they can neither create an
`s-l` token nor extend or shorten a digit run. -/
lemma noThumbPyReplace (pat rep : List Char) (hp : pat ≠ []) (hr : rep ≠ [])
    (hph : pat.head? = some '$') (hrh : rep.head? = some '$') (hsr : 's' ∉ rep) :
    ∀ n t, t.length ≤ n → NoThumb t → NoThumb (pyReplace pat rep t) := by
  intro n
  induction n with
  | zero =>
    intro t ht _
    have : t = [] := List.length_eq_zero.mp (Nat.le_zero.mp ht)
    subst this
    intro x y hxy hm
    rw [pyReplace_nil] at hxy
    have hy : y = [] := by
      have := congrArg List.length hxy
      simp only [List.length_nil, List.length_append] at this
      exact List.length_eq_zero.mp (by omega)
    rw [hy] at hm
    simp [slMatch] at hm
  | succ n ih =>
    intro t ht hnt
    match t with
    | [] =>
      intro x y hxy hm
      rw [pyReplace_nil] at hxy
      have hy : y = [] := by
        have := congrArg List.length hxy
        simp only [List.length_nil, List.length_append] at this
        exact List.length_eq_zero.mp (by omega)
      rw [hy] at hm
      simp [slMatch] at hm
    | c :: t' =>
      by_cases hm : pat ≠ [] ∧ pat.isPrefixOf (c :: t') = true
      · rw [pyReplace_cons_pos pat rep c t' hm.1 hm.2]
        have hsuf : (c :: t').drop pat.length <:+ c :: t' := List.drop_suffix _ _
        obtain ⟨x0, hx0⟩ := hsuf
        have hnt2 : NoThumb ((c :: t').drop pat.length) :=
          noThumbSuffixClosed _ x0 _ hnt hx0.symm
        have hlen2 : ((c :: t').drop pat.length).length ≤ n := by
          have hp1 : 0 < pat.length := List.length_pos.mpr hp
          simp only [List.length_drop, List.length_cons]
          simp only [List.length_cons] at ht
          omega
        have hw : NoThumb (pyReplace pat rep ((c :: t').drop pat.length)) :=
          ih _ hlen2 hnt2
        intro x y hxy hmy
        rcases List.append_eq_append_iff.mp hxy.symm with ⟨m, hsl, hy⟩ | ⟨m, hx, hwmy⟩
        · by_cases hm0 : m = []
          · subst hm0
            simp only [List.nil_append] at hy
            exact hw [] y (by simp [hy]) hmy
          · exfalso
            match m, hm0 with
            | mh :: m', _ =>
              have hmh : mh = 's' := by
                apply slMatchHead (m' ++ pyReplace pat rep ((c :: t').drop pat.length)) mh
                have hycons : y = mh :: (m' ++ pyReplace pat rep ((c :: t').drop pat.length)) := by
                  simpa using hy
                rw [← hycons]
                exact hmy
              subst hmh
              apply hsr
              rw [hsl]
              exact List.mem_append_right x (by simp)
        · exact hw m y hwmy hmy
      · rw [pyReplace_cons_neg pat rep c t' hm]
        have hw : NoThumb (pyReplace pat rep t') :=
          ih t' (by simp only [List.length_cons] at ht; omega)
            (noThumbSuffixClosed _ [c] _ hnt rfl)
        intro x y hxy hmy
        match x, hxy with
        | x0 :: x', hxy =>
          have h2 : pyReplace pat rep t' = x' ++ y := by
            have hx2 := hxy
            simp only [List.cons_append, List.cons.injEq] at hx2
            exact hx2.2
          exact hw x' y h2 hmy
        | [], hxy =>
          simp only [List.nil_append] at hxy
          obtain ⟨d, rr, hy, hd⟩ := slMatchDestruct y hmy
          rw [← hxy] at hy
          obtain ⟨hc, hout⟩ := List.cons.injEq .. ▸ hy
          have hdash : rep.head? ≠ some '-' := by rw [hrh]; decide
          have hell : rep.head? ≠ some 'l' := by rw [hrh]; decide
          have hdig : rep.head? ≠ some d := by
            rw [hrh]
            intro hdd
            have : '$' = d := by simpa using hdd
            rw [← this] at hd
            simp at hd
          obtain ⟨t2, ht2, hl2⟩ := pyReplaceKeptInv pat rep hr t' '-' _ hout hdash
          obtain ⟨t3, ht3, hl3⟩ := pyReplaceKeptInv pat rep hr t2 'l' _ hl2.symm hell
          obtain ⟨t4, ht4, hl4⟩ := pyReplaceKeptInv pat rep hr t3 d _ hl3.symm hdig
          have hmatchIn : slMatch (c :: t') = true := by
            rw [hc, ht2, ht3, ht4]
            simp [slMatch, hd]
          have hrunIn := hnt [] (c :: t') (by simp) hmatchIn
          rw [hc, ht2, ht3, ht4] at hrunIn
          simp only [List.drop_succ_cons, List.drop_zero] at hrunIn
          obtain ⟨t7, ht7, h7⟩ := runDestruct (d :: t4) hrunIn
          obtain ⟨hd1, ht47⟩ := List.cons.injEq .. ▸ ht7
          have hwt7 : ∀ c0, (pyReplace pat rep t7).head? = some c0 → c0.isDigit = false := by
            intro c0 h0
            match hrw : pyReplace pat rep t7, h0 with
            | a :: la, h0 =>
              have ha : a = c0 := by simpa using h0
              subst ha
              rcases pyReplaceHeadCases pat rep hr t7 a la hrw with h1 | h1
              · exact headNotOfTakeWhileNil Char.isDigit t7 h7 a h1
              · have : '$' = a := by
                  rw [hrh] at h1
                  simpa using h1
                rw [← this]
                decide
          have hr4 : pyReplace pat rep t4
              = '6' :: '0' :: '0' :: pyReplace pat rep t7 := by
            rw [ht47]
            rw [pyReplaceKeep pat rep '$' '6' _ hph (by decide)]
            rw [pyReplaceKeep pat rep '$' '0' _ hph (by decide)]
            rw [pyReplaceKeep pat rep '$' '0' _ hph (by decide)]
          rw [← hxy, hc, hout]
          simp only [List.drop_succ_cons, List.drop_zero]
          rw [hl4, hr4, hd1]
          rw [List.takeWhile_cons_of_pos (by decide), List.takeWhile_cons_of_pos (by decide),
            List.takeWhile_cons_of_pos (by decide), List.takeWhile_cons_of_pos (by decide)]
          rw [takeWhileNilOfHead Char.isDigit (pyReplace pat rep t7) hwt7]
          rfl

/-- The four legacy size tokens replaced in `parse_listing_details`. -/
def dP1 : List Char := (r"$_1.JPG").toList
def dP2 : List Char := (r"$_12.JPG").toList
def dP3 : List Char := (r"$_14.JPG").toList
def dP4 : List Char := (r"$_35.JPG").toList

/-- The replacement token for the legacy sizes. -/
def dRep : List Char := (r"$_57.JPG").toList

/-- `spider_high_res_url` written through the named tokens. -/
lemma spider_high_res_url_eq (url : List Char) :
    spider_high_res_url url
      = pyReplace dP4 dRep (pyReplace dP3 dRep (pyReplace dP2 dRep
          (pyReplace dP1 dRep (reSubSl url)))) := rfl

/-- After the spider rewrite, the output is `NoThumb` and none of the four
legacy tokens occurs. -/
lemma spiderClean (u : List Char) :
    NoThumb (spider_high_res_url u)
    ∧ ¬ dP1 <:+: spider_high_res_url u ∧ ¬ dP2 <:+: spider_high_res_url u
    ∧ ¬ dP3 <:+: spider_high_res_url u ∧ ¬ dP4 <:+: spider_high_res_url u := by
  rw [spider_high_res_url_eq]
  set u0 := reSubSl u with hu0
  set u1 := pyReplace dP1 dRep u0 with hu1
  set u2 := pyReplace dP2 dRep u1 with hu2
  set u3 := pyReplace dP3 dRep u2 with hu3
  have hnt0 : NoThumb u0 := noThumbReSubSl u.length u le_rfl
  have hnt1 : NoThumb u1 := noThumbPyReplace dP1 dRep (by decide) (by decide) (by decide)
    (by decide) (by decide) u0.length u0 le_rfl hnt0
  have hnt2 : NoThumb u2 := noThumbPyReplace dP2 dRep (by decide) (by decide) (by decide)
    (by decide) (by decide) u1.length u1 le_rfl hnt1
  have hnt3 : NoThumb u3 := noThumbPyReplace dP3 dRep (by decide) (by decide) (by decide)
    (by decide) (by decide) u2.length u2 le_rfl hnt2
  have hnt4 : NoThumb (pyReplace dP4 dRep u3) := noThumbPyReplace dP4 dRep (by decide)
    (by decide) (by decide) (by decide) (by decide) u3.length u3 le_rfl hnt3
  have h11 : ¬ dP1 <:+: u1 := noOccurStage dP1 dRep dP1 (by decide) (by decide)
    (by decide) (by decide) 'G' (by decide) (by decide) (by decide) u0 (Or.inl rfl)
  have h12 : ¬ dP1 <:+: u2 := noOccurStage dP2 dRep dP1 (by decide) (by decide)
    (by decide) (by decide) 'G' (by decide) (by decide) (by decide) u1 (Or.inr h11)
  have h13 : ¬ dP1 <:+: u3 := noOccurStage dP3 dRep dP1 (by decide) (by decide)
    (by decide) (by decide) 'G' (by decide) (by decide) (by decide) u2 (Or.inr h12)
  have h14 : ¬ dP1 <:+: pyReplace dP4 dRep u3 := noOccurStage dP4 dRep dP1 (by decide)
    (by decide) (by decide) (by decide) 'G' (by decide) (by decide) (by decide) u3 (Or.inr h13)
  have h22 : ¬ dP2 <:+: u2 := noOccurStage dP2 dRep dP2 (by decide) (by decide)
    (by decide) (by decide) 'G' (by decide) (by decide) (by decide) u1 (Or.inl rfl)
  have h23 : ¬ dP2 <:+: u3 := noOccurStage dP3 dRep dP2 (by decide) (by decide)
    (by decide) (by decide) 'G' (by decide) (by decide) (by decide) u2 (Or.inr h22)
  have h24 : ¬ dP2 <:+: pyReplace dP4 dRep u3 := noOccurStage dP4 dRep dP2 (by decide)
    (by decide) (by decide) (by decide) 'G' (by decide) (by decide) (by decide) u3 (Or.inr h23)
  have h33 : ¬ dP3 <:+: u3 := noOccurStage dP3 dRep dP3 (by decide) (by decide)
    (by decide) (by decide) 'G' (by decide) (by decide) (by decide) u2 (Or.inl rfl)
  have h34 : ¬ dP3 <:+: pyReplace dP4 dRep u3 := noOccurStage dP4 dRep dP3 (by decide)
    (by decide) (by decide) (by decide) 'G' (by decide) (by decide) (by decide) u3 (Or.inr h33)
  have h44 : ¬ dP4 <:+: pyReplace dP4 dRep u3 := noOccurStage dP4 dRep dP4 (by decide)
    (by decide) (by decide) (by decide) 'G' (by decide) (by decide) (by decide) u3 (Or.inl rfl)
  exact ⟨hnt4, h14, h24, h34, h44⟩

/-- Idempotence of the spider rewrite. -/
lemma spiderIdem (u : List Char) :
    spider_high_res_url (spider_high_res_url u) = spider_high_res_url u := by
  obtain ⟨hnt, h1, h2, h3, h4⟩ := spiderClean u
  rw [spider_high_res_url_eq (spider_high_res_url u)]
  rw [reSubSlOfNoThumb (spider_high_res_url u).length (spider_high_res_url u) le_rfl hnt]
  rw [pyReplaceOfNoOccur dP1 dRep (by decide) _ h1]
  rw [pyReplaceOfNoOccur dP2 dRep (by decide) _ h2]
  rw [pyReplaceOfNoOccur dP3 dRep (by decide) _ h3]
  rw [pyReplaceOfNoOccur dP4 dRep (by decide) _ h4]

/-- C4: both thumbnail-to-high-resolution canonicalizations are idempotent:
the per-token replacement variant of `_get_high_res_url` and the
`s-l\d+` → `s-l1600` regex variant (with its `$_N.JPG` replaces) of
`parse_listing_details` satisfy `canonicalize (canonicalize u) =
canonicalize u` for every URL string `u`. -/
theorem c4_canonicalize_idempotent (u : List Char) :
    get_high_res_url (get_high_res_url u) = get_high_res_url u
    ∧ spider_high_res_url (spider_high_res_url u) = spider_high_res_url u :=
  ⟨getHighResIdem u, spiderIdem u⟩

/-! ### C5 / C6 — `EbayGradedCardsSpider.extract_grading_info`
(src/graded_cards_scraper/spiders/ebay_spider.py:209-250) -/

/-- Python's substring containment `tok in text`. -/
def isSubstring (tok : List Char) : List Char → Bool
  | [] => tok.isEmpty
  | c :: ts => tok.isPrefixOf (c :: ts) || isSubstring tok ts

/-- `isSubstring` decides occurrence. -/
lemma isSubstringIff (tok t : List Char) : isSubstring tok t = true ↔ tok <:+: t := by
  induction t with
  | nil =>
    constructor
    · intro h
      have htok : tok = [] := by simpa [isSubstring, List.isEmpty_iff] using h
      rw [htok]
    · intro h
      have htok : tok = [] := isInfixNil tok h
      simp [isSubstring, htok]
  | cons c ts ih =>
    simp only [isSubstring, Bool.or_eq_true]
    constructor
    · rintro (h | h)
      · exact ((isPrefixOfIff tok (c :: ts)).mp h).isInfix
      · exact isInfixCons tok ts c (ih.mp h)
    · intro h
      rcases isInfixConsSplit tok c ts h with h1 | h1
      · exact Or.inl ((isPrefixOfIff tok (c :: ts)).mpr h1)
      · exact Or.inr (ih.mpr h1)

/-- Occurrence is preserved by `map`. -/
lemma isInfixMap (q t : List Char) (f : Char → Char) (h : q <:+: t) :
    q.map f <:+: t.map f := by
  obtain ⟨s, t', rfl⟩ := h
  exact ⟨s.map f, t'.map f, by simp⟩

/-- Match a literal, case-insensitively, at the current position; returns the
remaining text. -/
def matchLitCI : List Char → List Char → Option (List Char)
  | [], t => some t
  | _ :: _, [] => none
  | p :: ps, c :: ts => if ciEq p c then matchLitCI ps ts else none

/-- Match of `{company}\s*(\d+(?:\.\d+)?)` (with `re.IGNORECASE`) at the
current position, returning the captured group.  Greedy `\s*` and `\d+` agree
with backtracking semantics here because the character classes are disjoint. -/
def companyGradeMatchAt (company : List Char) (t : List Char) : Option (List Char) :=
  match matchLitCI company t with
  | none => none
  | some r1 =>
    let r2 := r1.dropWhile isPySpace
    let ds := r2.takeWhile Char.isDigit
    if ds.isEmpty then none
    else
      match r2.drop ds.length with
      | c :: r4 =>
        if c = '.' then
          let fs := r4.takeWhile Char.isDigit
          if fs.isEmpty then some ds else some (ds ++ '.' :: fs)
        else some ds
      | [] => some ds

/-- Match of `{company}\s*10\s*Pristine` (with `re.IGNORECASE`) at the
current position. -/
def pristineMatchAt (company : List Char) (t : List Char) : Option Unit :=
  match matchLitCI company t with
  | none => none
  | some r1 =>
    match matchLitCI ((r"10").toList) (r1.dropWhile isPySpace) with
    | none => none
    | some r2 =>
      match matchLitCI ((r"pristine").toList) (r2.dropWhile isPySpace) with
      | none => none
      | some _ => some ()

/-- `re.search`: try the position matcher at every position, left to right
(including the end-of-string position). -/
def searchSome {α : Type} (f : List Char → Option α) : List Char → Option α
  | [] => f []
  | c :: ts =>
    match f (c :: ts) with
    | some v => some v
    | none => searchSome f ts

/-- The grading fields extracted from a title. -/
structure GradingInfo where
  card_name : List Char
  grading_company : Option (List Char)
  grade : Option (List Char)
deriving DecidableEq, Repr

/-- The company token list of `extract_grading_info`, in source order. -/
def gradingCompanies : List (List Char) :=
  [(r"PSA").toList, (r"BGS").toList, (r"CGC").toList,
   (r"SGC").toList, (r"TAG").toList, (r"Beckett").toList]

/-- `EbayGradedCardsSpider.extract_grading_info`
(src/graded_cards_scraper/spiders/ebay_spider.py:209-250): take the first
company token contained in the upper-cased title (so `Beckett`, with its
lower-case letters, never matches); for TAG and CGC look for the compound
grade `10 Pristine` first; otherwise take the first `company  number` match;
the card name is the stripped text before (else after) the company token, or
the first half of the title when no company was found. -/
def extract_grading_info (title : List Char) : GradingInfo :=
  let up := pyUpper title
  match gradingCompanies.find? (fun comp => isSubstring comp up) with
  | some comp =>
    let grade :=
      if (comp = (r"TAG").toList ∨ comp = (r"CGC").toList)
          ∧ (searchSome (pristineMatchAt comp) title).isSome then
        some ((r"10 Pristine").toList)
      else
        searchSome (companyGradeMatchAt comp) title
    let parts := pySplit comp title
    let cardName :=
      match parts with
      | [] => []
      | p0 :: _ => if pyStrip p0 ≠ [] then pyStrip p0 else pyStrip (parts.getLastD [])
    { card_name := cardName, grading_company := some comp, grade := grade }
  | none =>
    { card_name := title.take (title.length / 2), grading_company := none, grade := none }

/-- `searchSome` returns the first position's match: if every earlier position
fails and position `k` yields `v`, the search yields `v`. -/
lemma searchSomeEq {α : Type} (f : List Char → Option α) :
    ∀ (t : List Char) (k : Nat) (v : α), k ≤ t.length →
      (∀ j, j < k → f (t.drop j) = none) → f (t.drop k) = some v →
      searchSome f t = some v := by
  intro t
  induction t with
  | nil =>
    intro k v hk _ hsome
    have : k = 0 := Nat.le_zero.mp hk
    subst this
    simpa [searchSome] using hsome
  | cons c ts ih =>
    intro k v hk hnone hsome
    match k with
    | 0 =>
      simp only [List.drop_zero] at hsome
      simp [searchSome, hsome]
    | Nat.succ j =>
      have h0 : f (c :: ts) = none := by simpa using hnone 0 (Nat.succ_pos j)
      simp only [searchSome, h0]
      refine ih j v (by simpa using hk) ?_ ?_
      · intro j' hj'
        have := hnone (j' + 1) (by omega)
        simpa using this
      · simpa using hsome

/-- If some position matches, the search succeeds. -/
lemma searchSomeIsSome {α : Type} (f : List Char → Option α) :
    ∀ (t : List Char) (k : Nat), k ≤ t.length →
      (f (t.drop k)).isSome → (searchSome f t).isSome := by
  intro t
  induction t with
  | nil =>
    intro k hk hsome
    have : k = 0 := Nat.le_zero.mp hk
    subst this
    simpa [searchSome] using hsome
  | cons c ts ih =>
    intro k hk hsome
    match hf : f (c :: ts) with
    | some v => simp [searchSome, hf]
    | none =>
      simp only [searchSome, hf]
      match k with
      | 0 =>
        rw [List.drop_zero, hf] at hsome
        simp at hsome
      | Nat.succ j =>
        exact ih j (by simpa using hk) (by simpa using hsome)

/-- C5 (counterexample): for the title `"psa3 PSA 10 card"` — of the claimed
form with prefix `"psa3"` and suffix `"card"` — the first case-insensitive
match of the company-number pattern is inside the prefix, and the extracted
grade is `"3"`, not `"10"`. -/
theorem c5_prefix_match_counterexample :
    (r"psa3 PSA 10 card").toList
      = (r"psa3").toList ++ (r" PSA 10 ").toList ++ (r"card").toList
    ∧ (extract_grading_info ((r"psa3 PSA 10 card").toList)).grading_company
        = some ((r"PSA").toList)
    ∧ (extract_grading_info ((r"psa3 PSA 10 card").toList)).grade
        = some ((r"3").toList)
    ∧ some ((r"3").toList) ≠ some ((r"10").toList) := by
  refine ⟨by decide, by decide, by decide, by decide⟩

/-- C5 (amended): for every title of the form `<prefix> PSA 10 <suffix>` in
which no case-insensitive `PSA`-number pattern match begins inside the prefix,
the extractor returns company `PSA` and grade `"10"`. -/
theorem c5_psa10_extraction (pre suf : List Char)
    (h : ∀ i, i < pre.length →
      companyGradeMatchAt ((r"PSA").toList) ((pre ++ (r" PSA 10 ").toList ++ suf).drop i)
        = none) :
    (extract_grading_info (pre ++ (r" PSA 10 ").toList ++ suf)).grading_company
      = some ((r"PSA").toList)
    ∧ (extract_grading_info (pre ++ (r" PSA 10 ").toList ++ suf)).grade
      = some ((r"10").toList) := by
  set title := pre ++ (r" PSA 10 ").toList ++ suf with htitle
  have hassoc : title = pre ++ ((r" PSA 10 ").toList ++ suf) := by
    rw [htitle, List.append_assoc]
  have hup : isSubstring ((r"PSA").toList) (pyUpper title) = true := by
    rw [isSubstringIff]
    refine ⟨pyUpper pre ++ [' '], [' ', '1', '0', ' '] ++ pyUpper suf, ?_⟩
    rw [htitle]
    simp only [pyUpper, List.map_append]
    have hmid : List.map Char.toUpper ((r" PSA 10 ").toList)
        = ' ' :: 'P' :: 'S' :: 'A' :: ' ' :: '1' :: '0' :: ' ' :: [] := by decide
    rw [hmid]
    simp
  have hfind : gradingCompanies.find? (fun comp => isSubstring comp (pyUpper title))
      = some ((r"PSA").toList) := by
    rw [gradingCompanies, List.find?_cons_of_pos _ (by simpa using hup)]
  have hdropPre : title.drop pre.length = (r" PSA 10 ").toList ++ suf := by
    rw [hassoc]
    exact List.drop_left pre _
  have hdropPre1 : title.drop (pre.length + 1) = (r"PSA 10 ").toList ++ suf := by
    have : title.drop (pre.length + 1) = (title.drop pre.length).drop 1 := by
      rw [List.drop_drop]
    rw [this, hdropPre]
    rfl
  have hsearch : searchSome (companyGradeMatchAt ((r"PSA").toList)) title
      = some ((r"10").toList) := by
    refine searchSomeEq _ title (pre.length + 1) _ ?_ ?_ ?_
    · rw [htitle]
      simp only [List.length_append]
      have : ((r" PSA 10 ").toList).length = 8 := rfl
      omega
    · intro j hj
      rcases Nat.lt_or_ge j pre.length with hlt | hge
      · exact h j hlt
      · have : j = pre.length := by omega
        subst this
        rw [hdropPre]
        rfl
    · rw [hdropPre1]
      rfl
  have hnotTag : ¬ (((r"PSA").toList = (r"TAG").toList ∨ (r"PSA").toList = (r"CGC").toList)
      ∧ (searchSome (pristineMatchAt ((r"PSA").toList)) title).isSome) := by
    rintro ⟨hor, -⟩
    rcases hor with hx | hx <;> simp at hx
  rw [extract_grading_info]
  simp only [hfind]
  refine ⟨trivial, ?_⟩
  rw [if_neg hnotTag, hsearch]

/-- C5 (witness): instantiating the amended theorem at the concrete title
`"Charizard PSA 10 Mint"`. -/
theorem c5_psa10_extraction_witness :
    (extract_grading_info ((r"Charizard").toList ++ (r" PSA 10 ").toList
        ++ (r"Mint").toList)).grade = some ((r"10").toList) :=
  (c5_psa10_extraction ((r"Charizard").toList) ((r"Mint").toList) (by decide)).2

/-- C6 (counterexample): the title `"PSA 9 CGC 10 Pristine"` contains the
phrase `"CGC 10 Pristine"`, yet the extractor returns grade `"9"` — the PSA
company token is found first and short-circuits the CGC branch. -/
theorem c6_pristine_counterexample :
    isSubstring ((r"CGC 10 Pristine").toList) ((r"PSA 9 CGC 10 Pristine").toList) = true
    ∧ (extract_grading_info ((r"PSA 9 CGC 10 Pristine").toList)).grade
        = some ((r"9").toList)
    ∧ some ((r"9").toList) ≠ some ((r"10 Pristine").toList) := by
  refine ⟨by decide, by decide, by decide⟩

/-- C6 (amended): for every title containing `"CGC 10 Pristine"` whose
upper-casing contains neither `"PSA"` nor `"BGS"` (the company tokens checked
before CGC), the extractor returns the literal grade `"10 Pristine"`. -/
theorem c6_pristine_extraction (title : List Char)
    (h1 : (r"CGC 10 Pristine").toList <:+: title)
    (h2 : ¬ (r"PSA").toList <:+: pyUpper title)
    (h3 : ¬ (r"BGS").toList <:+: pyUpper title) :
    (extract_grading_info title).grade = some ((r"10 Pristine").toList) := by
  have hcgc : isSubstring ((r"CGC").toList) (pyUpper title) = true := by
    rw [isSubstringIff]
    have hm := isInfixMap _ _ Char.toUpper h1
    have hphr : ((r"CGC 10 Pristine").toList).map Char.toUpper
        = (r"CGC 10 PRISTINE").toList := by decide
    rw [hphr] at hm
    refine List.IsInfix.trans ?_ hm
    exact ⟨[], (r" 10 PRISTINE").toList, rfl⟩
  have hpsa : isSubstring ((r"PSA").toList) (pyUpper title) = false := by
    rw [← Bool.not_eq_true]
    rw [isSubstringIff]
    exact h2
  have hbgs : isSubstring ((r"BGS").toList) (pyUpper title) = false := by
    rw [← Bool.not_eq_true]
    rw [isSubstringIff]
    exact h3
  have hfind : gradingCompanies.find? (fun comp => isSubstring comp (pyUpper title))
      = some ((r"CGC").toList) := by
    rw [gradingCompanies]
    rw [List.find?_cons_of_neg _ (by simpa using hpsa)]
    rw [List.find?_cons_of_neg _ (by simpa using hbgs)]
    rw [List.find?_cons_of_pos _ (by simpa using hcgc)]
  obtain ⟨x, y, hxy⟩ := h1
  have hpm : (pristineMatchAt ((r"CGC").toList) (title.drop x.length)).isSome := by
    have hdx : title.drop x.length = (r"CGC 10 Pristine").toList ++ y := by
      rw [← hxy, List.append_assoc]
      exact List.drop_left x _
    rw [hdx]
    rfl
  have hsearch : (searchSome (pristineMatchAt ((r"CGC").toList)) title).isSome := by
    refine searchSomeIsSome _ title x.length ?_ hpm
    rw [← hxy]
    simp only [List.length_append]
    omega
  rw [extract_grading_info]
  simp only [hfind]
  simp [hsearch]
  intro hnone
  have hs2 : (searchSome (pristineMatchAt (['C', 'G', 'C'])) title).isSome = true := hsearch
  rw [hnone] at hs2
  simp at hs2

/-- C6 (witness): instantiating the amended theorem at the concrete title
`"Charizard CGC 10 Pristine"`. -/
theorem c6_pristine_extraction_witness :
    (extract_grading_info ((r"Charizard CGC 10 Pristine").toList)).grade
      = some ((r"10 Pristine").toList) :=
  c6_pristine_extraction ((r"Charizard CGC 10 Pristine").toList)
    (by decide) (by decide) (by decide)

/-! ### C7 / C3 — `extract_grade_from_text` (src/filter.py:118-189) -/

/-- Match a literal exactly at the current position; returns the rest. -/
def matchLit : List Char → List Char → Option (List Char)
  | [], t => some t
  | _ :: _, [] => none
  | p :: ps, c :: ts => if p = c then matchLit ps ts else none

/-- `\b` before a word character: the previous character (if any) is not a
word character. -/
def boundaryBefore (prev : Option Char) : Bool :=
  match prev with
  | none => true
  | some c => !isWordChar c

/-- `\b` after a word character: the next character (if any) is not a word
character. -/
def boundaryAfter (rest : List Char) : Bool :=
  match rest.head? with
  | none => true
  | some c => !isWordChar c

/-- Position-scanning search that tracks the previous character, so position
matchers can test `\b` on their left. -/
def searchBAux {α : Type} (f : Option Char → List Char → Option α) :
    Option Char → List Char → Option α
  | prev, [] => f prev []
  | prev, c :: ts =>
    match f prev (c :: ts) with
    | some v => some v
    | none => searchBAux f (some c) ts

/-- `re.search` for a boundary-aware position matcher. -/
def searchB {α : Type} (f : Option Char → List Char → Option α) (t : List Char) : Option α :=
  searchBAux f none t

/-- `float(s)` for plain decimal literals (optional sign, digits, optional
fractional part), as an exact rational.  Python also accepts exponent and
inf/nan forms; those are treated as unparseable here, and the same parser is
used both for the range guard and in the theorems, keeping the model
self-consistent. -/
def parseFloat (s : List Char) : Option ℚ :=
  let sgn : Int := match s.head? with
    | some c => if c = '-' then -1 else 1
    | none => 1
  let s1 := match s.head? with
    | some c => if c = '-' ∨ c = '+' then s.tail else s
    | none => s
  let ip := s1.takeWhile Char.isDigit
  let r1 := s1.drop ip.length
  match r1.head? with
  | none => if ip.isEmpty then none else some (mkRat (sgn * parseNat ip) 1)
  | some c =>
    if c = '.' then
      let fr := r1.tail.takeWhile Char.isDigit
      let r2 := r1.tail.drop fr.length
      if !r2.isEmpty then none
      else if ip.isEmpty && fr.isEmpty then none
      else some (mkRat (sgn * (parseNat ip * 10 ^ fr.length + parseNat fr)) (10 ^ fr.length))
    else none

/-- The `\s*(\d+(?:\.\d+)?)\b` tail of the grade patterns, from the position
after the introducing literal; returns the captured group.  Greedy matching
with the `\b` fallback: when a fractional part is present but followed by a
word character, the optional group backtracks to the integer part (the `.`
then satisfies the boundary). -/
def gradeGroupAt (t : List Char) : Option (List Char) :=
  let r2 := t.dropWhile isPySpace
  let ds := r2.takeWhile Char.isDigit
  if ds.isEmpty then none
  else
    let r3 := r2.drop ds.length
    match r3.head? with
    | some c =>
      if c = '.' then
        let fs := r3.tail.takeWhile Char.isDigit
        if fs.isEmpty then some ds
        else if boundaryAfter (r3.tail.drop fs.length) then some (ds ++ '.' :: fs)
        else some ds
      else if boundaryAfter r3 then some ds else none
    | none => some ds

/-- First alternative of `(?:CGC|PSA|BGS|SGC)` (case-insensitive) that matches
and whose grade tail succeeds. -/
def altGradeTry (t : List Char) : List (List Char) → Option (List Char)
  | [] => none
  | a :: as =>
    match matchLitCI a t with
    | some r =>
      match gradeGroupAt r with
      | some g => some g
      | none => altGradeTry t as
    | none => altGradeTry t as

/-- `\b(?:CGC|PSA|BGS|SGC)\s*(\d+(?:\.\d+)?)\b` at a position. -/
def p1MatchAt (prev : Option Char) (t : List Char) : Option (List Char) :=
  if boundaryBefore prev then
    altGradeTry t [(r"CGC").toList, (r"PSA").toList, (r"BGS").toList, (r"SGC").toList]
  else none

/-- `\b{lit}\s*(\d+(?:\.\d+)?)\b` at a position (used for `grade`, `graded`,
`pristine`). -/
def litGradeMatchAt (lit : List Char) (prev : Option Char) (t : List Char) :
    Option (List Char) :=
  if boundaryBefore prev then
    match matchLitCI lit t with
    | some r => gradeGroupAt r
    | none => none
  else none

/-- The `\s*(?:mint|nm|gem)\b` tail of pattern 4. -/
def mintTailAt (t : List Char) : Option Unit :=
  let r := t.dropWhile isPySpace
  [(r"mint").toList, (r"nm").toList, (r"gem").toList].foldr
    (fun a acc =>
      match matchLitCI a r with
      | some r2 => if boundaryAfter r2 then some () else acc
      | none => acc) none

/-- `\b(\d+(?:\.\d+)?)\s*(?:mint|nm|gem)\b` at a position. -/
def p4MatchAt (prev : Option Char) (t : List Char) : Option (List Char) :=
  if boundaryBefore prev then
    let ds := t.takeWhile Char.isDigit
    if ds.isEmpty then none
    else
      let r3 := t.drop ds.length
      match r3.head? with
      | some c =>
        if c = '.' then
          let fs := r3.tail.takeWhile Char.isDigit
          if fs.isEmpty then none
          else
            match mintTailAt (r3.tail.drop fs.length) with
            | some _ => some (ds ++ '.' :: fs)
            | none => none
        else
          match mintTailAt r3 with
          | some _ => some ds
          | none => none
      | none => none
  else none

/-- `\bgem\s*mint\s*(\d+(?:\.\d+)?)\b` at a position. -/
def p5MatchAt (prev : Option Char) (t : List Char) : Option (List Char) :=
  if boundaryBefore prev then
    match matchLitCI ((r"gem").toList) t with
    | some r =>
      match matchLitCI ((r"mint").toList) (r.dropWhile isPySpace) with
      | some r2 => gradeGroupAt r2
      | none => none
    | none => none
  else none

/-- `\bmint\+?\s*(\d+(?:\.\d+)?)\b` at a position. -/
def p7MatchAt (prev : Option Char) (t : List Char) : Option (List Char) :=
  if boundaryBefore prev then
    match matchLitCI ((r"mint").toList) t with
    | some r =>
      match r.head? with
      | some c => if c = '+' then gradeGroupAt r.tail else gradeGroupAt r
      | none => gradeGroupAt r
    | none => none
  else none

/-- The seven direct grade patterns of `extract_grade_from_text`, in source
order. -/
def gradePatterns : List (Option Char → List Char → Option (List Char)) :=
  [p1MatchAt,
   litGradeMatchAt ((r"grade").toList),
   litGradeMatchAt ((r"graded").toList),
   p4MatchAt,
   p5MatchAt,
   litGradeMatchAt ((r"pristine").toList),
   p7MatchAt]

/-- The range guard of pattern 1: keep a captured grade only when its value
lies in `[0, 10]`. -/
def validateGrade (g : List Char) : Option (List Char) :=
  match parseFloat g with
  | some q => if 0 ≤ q ∧ q ≤ 10 then some g else none
  | none => none

/-- The pattern loop: first pattern whose first match passes the range check
(a failed check moves on to the next pattern, as in the source). -/
def tryGradePatterns (text : List Char) :
    List (Option Char → List Char → Option (List Char)) → Option (List Char)
  | [] => none
  | m :: ms =>
    match searchB m text with
    | some g =>
      match validateGrade g with
      | some g' => some g'
      | none => tryGradePatterns text ms
    | none => tryGradePatterns text ms

/-- The alternation of the standalone pattern
`\b(10|9\.5|9|8\.5|8|7\.5|7|6\.5|6|5\.5|5)\b`, in source order. -/
def standaloneAlts : List (List Char) :=
  [(r"10").toList, (r"9.5").toList, (r"9").toList, (r"8.5").toList, (r"8").toList,
   (r"7.5").toList, (r"7").toList, (r"6.5").toList, (r"6").toList, (r"5.5").toList,
   (r"5").toList]

/-- First alternative that matches with a right boundary. -/
def standaloneTry (t : List Char) : List (List Char) → Option (List Char)
  | [] => none
  | a :: as =>
    match matchLit a t with
    | some r => if boundaryAfter r then some a else standaloneTry t as
    | none => standaloneTry t as

/-- The standalone pattern at a position (no `re.IGNORECASE` on this one). -/
def standaloneMatchAt (prev : Option Char) (t : List Char) : Option (List Char) :=
  if boundaryBefore prev then standaloneTry t standaloneAlts else none

/-- One spaCy token, as far as the fallback inspects it. -/
structure NToken where
  text : List Char
  like_num : Bool
deriving DecidableEq, Repr

/-- The grading-context keywords of the NLP fallback. -/
def nlpKeywords : List (List Char) :=
  [(r"cgc").toList, (r"psa").toList, (r"bgs").toList, (r"sgc").toList,
   (r"grade").toList, (r"mint").toList, (r"gem").toList, (r"pristine").toList]

/-- The window test of the NLP fallback: join the token texts in
`[i-2, i+3)`, lower them, and look for any keyword as a substring. -/
def nlpContextHit (doc : List NToken) (i : Nat) : Bool :=
  let ws := i - 2
  let we := min doc.length (i + 3)
  let ctx := pyLower (List.intercalate [' '] (((doc.drop ws).take (we - ws)).map NToken.text))
  nlpKeywords.any (fun k => isSubstring k ctx)

/-- The token loop of the NLP fallback (src/filter.py:172-185): the first
number-like token in grading context whose text parses to a value in
`[0, 10]`. -/
def nlpLoop (doc : List NToken) : List (Nat × NToken) → List Char
  | [] => []
  | (i, tok) :: rest =>
    if tok.like_num ∧ nlpContextHit doc i then
      match parseFloat tok.text with
      | some q => if 0 ≤ q ∧ q ≤ 10 then tok.text else nlpLoop doc rest
      | none => nlpLoop doc rest
    else nlpLoop doc rest

/-- `extract_grade_from_text` (src/filter.py:118-189): empty text yields `""`;
otherwise the seven direct patterns with range validation, then the standalone
canonical-grade pattern, then the NLP fallback (`nlpo` is the optional spaCy
model, mapping a text to its token list). -/
def extract_grade_from_text (text : List Char)
    (nlpo : Option (List Char → List NToken)) : List Char :=
  if text = [] then []
  else
    match tryGradePatterns text gradePatterns with
    | some g => g
    | none =>
      match searchB standaloneMatchAt text with
      | some g => g
      | none =>
        match nlpo with
        | some nlp => nlpLoop (nlp text) (nlp text).enum
        | none => []

/-- Boolean form of "the captured text parses to a grade in `[0, 10]`". -/
def gradeInRangeB (g : List Char) : Bool :=
  match parseFloat g with
  | some q => decide (0 ≤ q) && decide (q ≤ 10)
  | none => false

/-- The Boolean range test decides the range property. -/
lemma gradeInRangeBIff (g : List Char) :
    gradeInRangeB g = true ↔ ∃ q, parseFloat g = some q ∧ 0 ≤ q ∧ q ≤ 10 := by
  unfold gradeInRangeB
  split
  · next q hp =>
    simp only [Bool.and_eq_true, decide_eq_true_eq]
    constructor
    · intro h
      exact ⟨q, hp, h.1, h.2⟩
    · rintro ⟨q', hq', h1, h2⟩
      rw [hp] at hq'
      have hqq : q = q' := by simpa using hq'
      subst hqq
      exact ⟨h1, h2⟩
  · next hp =>
    simp only [Bool.false_eq_true, false_iff]
    rintro ⟨q', hq', -⟩
    rw [hp] at hq'
    simp at hq'

/-- A value passed through the range guard parses to a grade in `[0, 10]`. -/
lemma validateGradeSound (g g' : List Char) (h : validateGrade g = some g') :
    g' = g ∧ ∃ q, parseFloat g = some q ∧ 0 ≤ q ∧ q ≤ 10 := by
  unfold validateGrade at h
  split at h
  · next q hp =>
    split at h
    · next hr =>
      have hgg : g = g' := by simpa using h
      exact ⟨hgg.symm, q, hp, hr⟩
    · simp at h
  · simp at h

/-- Every value the pattern loop returns passed the range guard. -/
lemma tryGradePatternsSound (text : List Char) :
    ∀ (ms : List (Option Char → List Char → Option (List Char))) (g : List Char),
      tryGradePatterns text ms = some g →
      ∃ q, parseFloat g = some q ∧ 0 ≤ q ∧ q ≤ 10 := by
  intro ms
  induction ms with
  | nil =>
    intro g h
    simp [tryGradePatterns] at h
  | cons m ms ih =>
    intro g h
    rw [tryGradePatterns] at h
    split at h
    · next g0 hs =>
      split at h
      · next g' hv =>
        obtain ⟨heq, hq⟩ := validateGradeSound g0 g' hv
        have hgg : g' = g := by simpa using h
        subst hgg
        rw [heq]
        exact hq
      · exact ih g h
    · exact ih g h

/-- A value produced by a boundary-aware search came from the position
matcher. -/
lemma searchBSound {α : Type} (f : Option Char → List Char → Option α) (P : α → Prop)
    (hf : ∀ prev t' v, f prev t' = some v → P v) :
    ∀ (prev : Option Char) (t : List Char) (v : α),
      searchBAux f prev t = some v → P v := by
  intro prev t
  induction t generalizing prev with
  | nil =>
    intro v h
    exact hf prev [] v (by simpa [searchBAux] using h)
  | cons c ts ih =>
    intro v h
    rw [searchBAux] at h
    split at h
    · next v0 hfc =>
      have hv : v0 = v := by simpa using h
      subst hv
      exact hf prev (c :: ts) v0 hfc
    · next hfc => exact ih (some c) v h

/-- The standalone matcher only returns alternatives from its list. -/
lemma standaloneTrySound (t : List Char) :
    ∀ (alts : List (List Char)) (g : List Char),
      standaloneTry t alts = some g → g ∈ alts := by
  intro alts
  induction alts with
  | nil =>
    intro g h
    simp [standaloneTry] at h
  | cons a as ih =>
    intro g h
    rw [standaloneTry] at h
    split at h
    · next r hm =>
      split at h
      · next hb =>
        have hag : a = g := by simpa using h
        subst hag
        exact List.mem_cons_self a as
      · exact List.mem_cons_of_mem a (ih g h)
    · next hm => exact List.mem_cons_of_mem a (ih g h)

/-- Every alternative of the standalone pattern parses to a grade in
`[0, 10]`. -/
lemma standaloneAltsInRange (g : List Char) (hg : g ∈ standaloneAlts) :
    ∃ q, parseFloat g = some q ∧ 0 ≤ q ∧ q ≤ 10 := by
  rw [← gradeInRangeBIff]
  have hg2 := by simpa only [standaloneAlts, List.mem_cons, List.not_mem_nil, or_false]
    using hg
  rcases hg2 with rfl | rfl | rfl | rfl | rfl | rfl | rfl | rfl | rfl | rfl | rfl
  all_goals decide

/-- The NLP fallback returns `""` or a token text in range. -/
lemma nlpLoopSound (doc : List NToken) :
    ∀ (l : List (Nat × NToken)),
      nlpLoop doc l = [] ∨ ∃ q, parseFloat (nlpLoop doc l) = some q ∧ 0 ≤ q ∧ q ≤ 10 := by
  intro l
  induction l with
  | nil => exact Or.inl rfl
  | cons p rest ih =>
    match p with
    | (i, tok) =>
      rw [nlpLoop]
      split
      · split
        · next q hp =>
          split
          · next hr => exact Or.inr ⟨q, hp, hr⟩
          · exact ih
        · exact ih
      · exact ih

/-- C7 (amended): every grade the filtering-stage extractor returns — through
any of its three stages, including the NLP fallback under an arbitrary
tokenizer — parses to a value in `[0, 10]`, or the field is left empty; values
outside the range are discarded, never clamped. -/
theorem c7_filter_grade_in_range (text : List Char)
    (nlpo : Option (List Char → List NToken)) :
    extract_grade_from_text text nlpo = []
    ∨ ∃ q, parseFloat (extract_grade_from_text text nlpo) = some q ∧ 0 ≤ q ∧ q ≤ 10 := by
  by_cases ht : text = []
  · left
    simp [extract_grade_from_text, ht]
  · rw [extract_grade_from_text.eq_def, if_neg ht]
    match h1 : tryGradePatterns text gradePatterns with
    | some g => exact Or.inr (tryGradePatternsSound text gradePatterns g h1)
    | none =>
      match h2 : searchB standaloneMatchAt text with
      | some g =>
        refine Or.inr (standaloneAltsInRange g ?_)
        refine searchBSound standaloneMatchAt (fun v => v ∈ standaloneAlts) ?_ none text g h2
        intro prev t' v hv
        rw [standaloneMatchAt] at hv
        by_cases hb : boundaryBefore prev = true
        · rw [if_pos hb] at hv
          exact standaloneTrySound t' standaloneAlts v hv
        · rw [if_neg hb] at hv
          simp at hv
      | none =>
        match nlpo with
        | some nlp => exact nlpLoopSound (nlp text) ((nlp text).enum)
        | none => exact Or.inl rfl

/-- C7 (counterexample): the ingestion-time extractor has no range guard:
`"PSA 11 Charizard"` yields grade `"11"`, which parses to 11 > 10, and a CGC
pristine title yields the non-numeric grade `"10 Pristine"`; the
filtering-stage extractor discards the out-of-range `11`. -/
theorem c7_spider_grade_out_of_range :
    (extract_grading_info ((r"PSA 11 Charizard").toList)).grade = some ((r"11").toList)
    ∧ parseFloat ((r"11").toList) = some 11
    ∧ ¬ ((11 : ℚ) ≤ 10)
    ∧ (extract_grading_info ((r"Pikachu CGC 10 Pristine").toList)).grade
        = some ((r"10 Pristine").toList)
    ∧ parseFloat ((r"10 Pristine").toList) = none
    ∧ extract_grade_from_text ((r"PSA 11 Charizard").toList) none = [] := by
  refine ⟨by decide, by decide, by decide, by decide, by decide, by decide⟩

/-- C7 (witness): instantiating the amended theorem on a concrete text with a
valid grade: `"PSA 9.5 Charizard"` yields a non-empty in-range grade. -/
theorem c7_filter_grade_in_range_witness :
    extract_grade_from_text ((r"PSA 9.5 Charizard").toList) none = [] ∨
    ∃ q, parseFloat (extract_grade_from_text ((r"PSA 9.5 Charizard").toList) none) = some q
      ∧ 0 ≤ q ∧ q ≤ 10 :=
  c7_filter_grade_in_range ((r"PSA 9.5 Charizard").toList) none

/-! ### C3 — `should_filter_row` (src/filter.py:192-235) and
`contains_multiple_cards` (src/filter.py:50-115) -/

/-- `count_images` (src/filter.py:29-38): split the comma-separated images
cell and count the non-empty stripped entries. -/
def count_images (images_str : List Char) : Nat :=
  if images_str = [] ∨ pyStrip images_str = [] then 0
  else (((pySplitChar ',' images_str).map pyStrip).filter (fun s => s ≠ [])).length

/-- `\bthicc\b` (case-insensitive) at a position. -/
def thiccMatchAt (prev : Option Char) (t : List Char) : Option Unit :=
  if boundaryBefore prev then
    match matchLitCI ((r"thicc").toList) t with
    | some rest => if boundaryAfter rest then some () else none
    | none => none
  else none

/-- `contains_thicc` (src/filter.py:41-47). -/
def contains_thicc (text : List Char) : Bool :=
  if text = [] then false
  else (searchB thiccMatchAt text).isSome

/-- The `cards?\b` tail shared by the quantity patterns: after the literal
`card`, an optional `s`, then a word boundary (with the backtracking fallback
to the `s`-less form). -/
def cardsTailAt (t : List Char) : Option Unit :=
  match matchLit ((r"card").toList) t with
  | some rest =>
    match rest.head? with
    | some c =>
      if c = 's' then if boundaryAfter rest.tail then some () else none
      else if boundaryAfter rest then some () else none
    | none => some ()
  | none => none

/-- `\b\d+\s*(?:pokemon\s+)?cards?\b` at a position (and, with `graded`, the
second quantity pattern). -/
def quantityMatchAt (word : List Char) (prev : Option Char) (t : List Char) : Option Unit :=
  if boundaryBefore prev then
    let ds := t.takeWhile Char.isDigit
    if ds.isEmpty then none
    else
      let r1 := (t.drop ds.length).dropWhile isPySpace
      match matchLit word r1 with
      | some r2 =>
        if (r2.takeWhile isPySpace).isEmpty then cardsTailAt r1
        else
          match cardsTailAt (r2.dropWhile isPySpace) with
          | some u => some u
          | none => cardsTailAt r1
      | none => cardsTailAt r1
  else none

/-- `\b\d+\+\s*cards?\b` at a position. -/
def plusCardsMatchAt (prev : Option Char) (t : List Char) : Option Unit :=
  if boundaryBefore prev then
    let ds := t.takeWhile Char.isDigit
    if ds.isEmpty then none
    else
      match (t.drop ds.length).head? with
      | some c =>
        if c = '+' then cardsTailAt (((t.drop ds.length).tail).dropWhile isPySpace)
        else none
      | none => none
  else none

/-- `\b{tok}\b` at a position (single-word collection keyword). -/
def wordMatchAt (tok : List Char) (prev : Option Char) (t : List Char) : Option Unit :=
  if boundaryBefore prev then
    match matchLit tok t with
    | some rest => if boundaryAfter rest then some () else none
    | none => none
  else none

/-- `\b{a}\s+{b}\b` at a position (two-word collection keyword). -/
def twoWordMatchAt (a b : List Char) (prev : Option Char) (t : List Char) : Option Unit :=
  if boundaryBefore prev then
    match matchLit a t with
    | some r1 =>
      if (r1.takeWhile isPySpace).isEmpty then none
      else
        match matchLit b (r1.dropWhile isPySpace) with
        | some r2 => if boundaryAfter r2 then some () else none
        | none => none
    | none => none
  else none

/-- `\b\d+\b` at a position. -/
def numberMatchAt (prev : Option Char) (t : List Char) : Option Unit :=
  if boundaryBefore prev then
    let ds := t.takeWhile Char.isDigit
    if ds.isEmpty then none
    else if boundaryAfter (t.drop ds.length) then some () else none
  else none

/-- `\b\d+\s*{sep}\s*\d+\b` at a position (`-` and `,` range/list patterns). -/
def rangeMatchAt (sep : Char) (prev : Option Char) (t : List Char) : Option Unit :=
  if boundaryBefore prev then
    let ds := t.takeWhile Char.isDigit
    if ds.isEmpty then none
    else
      match ((t.drop ds.length).dropWhile isPySpace).head? with
      | some c =>
        if c = sep then
          let r2 := (((t.drop ds.length).dropWhile isPySpace).tail).dropWhile isPySpace
          let ds2 := r2.takeWhile Char.isDigit
          if ds2.isEmpty then none
          else if boundaryAfter (r2.drop ds2.length) then some () else none
        else none
      | none => none
  else none

/-- The collection keywords of pattern 2, in source order, as position
matchers on the lowered text. -/
def collectionKeywordMatchers : List (Option Char → List Char → Option Unit) :=
  [wordMatchAt ((r"lot").toList),
   wordMatchAt ((r"collection").toList),
   wordMatchAt ((r"bundle").toList),
   twoWordMatchAt ((r"mystery").toList) ((r"box").toList),
   twoWordMatchAt ((r"mystery").toList) ((r"pack").toList),
   twoWordMatchAt ((r"mixed").toList) ((r"lot").toList),
   wordMatchAt ((r"bulk").toList),
   wordMatchAt ((r"multiple").toList),
   twoWordMatchAt ((r"set").toList) ((r"of").toList),
   twoWordMatchAt ((r"box").toList) ((r"of").toList),
   twoWordMatchAt ((r"pack").toList) ((r"of").toList)]

/-- `contains_multiple_cards` (src/filter.py:50-115): quantity patterns, then
collection keywords co-occurring with a number, then ranges/lists, then
`each` plus a number — all on the lowered text. -/
def contains_multiple_cards (text : List Char) : Bool :=
  if text = [] then false
  else
    let tl := pyLower text
    (searchB (quantityMatchAt ((r"pokemon").toList)) tl).isSome
    || (searchB (quantityMatchAt ((r"graded").toList)) tl).isSome
    || (searchB plusCardsMatchAt tl).isSome
    || (collectionKeywordMatchers.any (fun m => (searchB m tl).isSome)
        && (searchB numberMatchAt tl).isSome)
    || (searchB (rangeMatchAt '-') tl).isSome
    || (searchB (rangeMatchAt ',') tl).isSome
    || ((searchB (wordMatchAt ((r"each").toList)) tl).isSome
        && (searchB numberMatchAt tl).isSome)

/-- Which text field triggered the banned-term check. -/
inductive TextField where
  | title
  | cardName
deriving DecidableEq, Repr

/-- The decision reasons of `should_filter_row`, one per return site. -/
inductive FilterReason where
  | tooFewImages (n : Nat)
  | containsThicc (field : TextField)
  | multipleCards
  | gradeExtracted (g : List Char)
  | missingGrade
  | passedAll
deriving DecidableEq, Repr

/-- The row fields `should_filter_row` reads (`row.get(..., '')`). -/
structure FilterRow where
  images : List Char
  title : List Char
  card_name : List Char
  grade : List Char
deriving DecidableEq, Repr

/-- `should_filter_row` (src/filter.py:192-235): image count, banned term,
multiple-cards signal, then grade backfill; returns the decision, its reason,
and the (possibly grade-updated) row. -/
def should_filter_row (nlpo : Option (List Char → List NToken)) (row : FilterRow) :
    Bool × FilterReason × FilterRow :=
  let imageCount := count_images row.images
  if imageCount ≤ 1 then (true, .tooFewImages imageCount, row)
  else if contains_thicc row.title then (true, .containsThicc .title, row)
  else if contains_thicc row.card_name then (true, .containsThicc .cardName, row)
  else if contains_multiple_cards row.title || contains_multiple_cards row.card_name then
    (true, .multipleCards, row)
  else if pyStrip row.grade = [] then
    let eg0 := extract_grade_from_text row.card_name nlpo
    let eg := if eg0 = [] then extract_grade_from_text row.title nlpo else eg0
    if eg ≠ [] then (false, .gradeExtracted eg, { row with grade := eg })
    else (true, .missingGrade, row)
  else (false, .passedAll, row)

/-- A row whose title carries a multiple-cards signal but which has no
images. -/
def c3RowZeroImages : FilterRow :=
  { images := []
    title := (r"Lot of 10 cards").toList
    card_name := []
    grade := [] }

/-- C3 (counterexample): a row whose title matches a multiple-cards signal but
which has no images is rejected with the image-count reason, not the
multiple-cards reason — the image-count and banned-term checks run first. -/
theorem c3_multicards_counterexample :
    contains_multiple_cards ((r"Lot of 10 cards").toList) = true
    ∧ should_filter_row none c3RowZeroImages
        = (true, FilterReason.tooFewImages 0, c3RowZeroImages)
    ∧ FilterReason.tooFewImages 0 ≠ FilterReason.multipleCards := by
  refine ⟨by decide, by decide, by decide⟩

/-- C3 (amended): for every row that passes the image-count check (at least 2
images) and the banned-term check, a multiple-cards signal in the title or the
card name rejects the row with the multiple-cards reason, with the row — in
particular its grade — untouched: grade backfill is never invoked. -/
theorem c3_multicards_precede_backfill (nlpo : Option (List Char → List NToken))
    (row : FilterRow)
    (h1 : 2 ≤ count_images row.images)
    (h2 : contains_thicc row.title = false)
    (h3 : contains_thicc row.card_name = false)
    (h4 : contains_multiple_cards row.title = true
      ∨ contains_multiple_cards row.card_name = true) :
    should_filter_row nlpo row = (true, FilterReason.multipleCards, row) := by
  unfold should_filter_row
  rw [if_neg (by omega : ¬ count_images row.images ≤ 1)]
  rw [if_neg (by simp [h2])]
  rw [if_neg (by simp [h3])]
  rw [if_pos (by rcases h4 with h | h <;> simp [h])]

/-- C3 (witness): the scenario row — title
`"Lot of 10 Pokemon cards PSA 9"`, two images, no grade — is rejected as a
multiple-cards listing even though `PSA 9` looks like a grade. -/
theorem c3_multicards_precede_backfill_witness :
    should_filter_row none
      { images := (r"a.jpg, b.jpg").toList
        title := (r"Lot of 10 Pokemon cards PSA 9").toList
        card_name := []
        grade := [] }
      = (true, FilterReason.multipleCards,
         { images := (r"a.jpg, b.jpg").toList
           title := (r"Lot of 10 Pokemon cards PSA 9").toList
           card_name := []
           grade := [] }) :=
  c3_multicards_precede_backfill none _ (by decide) (by decide) (by decide)
    (Or.inl (by decide))

/-! ### C9 — `delete_image_files` (src/filter.py:238-295) -/

/-- A filesystem path, as a list of components. -/
abbrev FPath : Type := List (List Char)

/-- The filesystem state the deletion pass operates on: the set of existing
files and the set of existing directories. -/
structure FS where
  files : List FPath
  dirs : List FPath
deriving DecidableEq, Repr

/-- The files whose parent directory is `d`. -/
def filesIn (fs : FS) (d : FPath) : List FPath :=
  fs.files.filter (fun f => f.dropLast = d)

/-- `list(directory.iterdir())`: the files and subdirectories whose parent is
`d`. -/
def contentsOf (fs : FS) (d : FPath) : List FPath :=
  fs.files.filter (fun f => f.dropLast = d)
    ++ fs.dirs.filter (fun e => e ≠ [] ∧ e.dropLast = d)

/-- `base_dir / "downloaded_images" / image_path` (components model; the
image path from the CSV cell is split on `/`). -/
def fullImagePath (base : FPath) (img : List Char) : FPath :=
  base ++ [(r"downloaded_images").toList] ++ pySplitChar '/' img

/-- `[img.strip() for img in images_str.split(',') if img.strip()]`. -/
def parsedImages (images_str : List Char) : List (List Char) :=
  ((pySplitChar ',' images_str).map pyStrip).filter (fun s => s ≠ [])

/-- `set.add` on the insertion-ordered model of `directories_to_delete`. -/
def addDir (l : List FPath) (d : FPath) : List FPath :=
  if d ∈ l then l else l ++ [d]

/-- Removing a path from a set of paths (`unlink` / `rmdir` on the model). -/
def removePath (l : List FPath) (p : FPath) : List FPath :=
  l.filter (fun q => q ≠ p)

/-- State of the per-file loop: filesystem, directories touched, files
deleted. -/
structure DelState where
  fs : FS
  dirsToDelete : List FPath
  deletedCount : Nat
deriving Repr

/-- The per-file loop of `delete_image_files` (src/filter.py:257-277): for an
existing file, record its parent directory and unlink it (an unlink in
`failSet` raises and is caught, after the parent was already recorded); for a
missing file, record the parent directory if it exists.  Failures never stop
the loop. -/
def deleteFilesPhase (base : FPath) (failSet : List FPath) :
    DelState → List (List Char) → DelState
  | st, [] => st
  | st, img :: rest =>
    let full := fullImagePath base img
    if full ∈ st.fs.files then
      let dirs' := addDir st.dirsToDelete full.dropLast
      if full ∈ failSet then
        deleteFilesPhase base failSet { st with dirsToDelete := dirs' } rest
      else
        deleteFilesPhase base failSet
          { fs := { files := removePath st.fs.files full, dirs := st.fs.dirs }
            dirsToDelete := dirs'
            deletedCount := st.deletedCount + 1 } rest
    else
      if full.dropLast ∈ st.fs.dirs then
        deleteFilesPhase base failSet
          { st with dirsToDelete := addDir st.dirsToDelete full.dropLast } rest
      else
        deleteFilesPhase base failSet st rest

/-- The per-directory loop of `delete_image_files` (src/filter.py:280-293):
re-enumerate the contents immediately before removal; remove the directory
only when they are empty; otherwise only report it.  A directory in `failSet`
models an `iterdir`/`rmdir` exception, caught and logged.  Failures never
stop the loop. -/
def cleanupDirs (failSet : List FPath) : FS → List FPath → FS
  | fs, [] => fs
  | fs, d :: ds =>
    if d ∈ failSet then cleanupDirs failSet fs ds
    else if contentsOf fs d = [] then
      cleanupDirs failSet { files := fs.files, dirs := removePath fs.dirs d } ds
    else cleanupDirs failSet fs ds

/-- `delete_image_files` (src/filter.py:238-295): parse the images cell,
delete the files, then clean up the touched directories; returns the new
filesystem and the number of files deleted. -/
def delete_image_files (base : FPath) (failSet : List FPath) (images_str : List Char)
    (fs : FS) : FS × Nat :=
  if images_str = [] ∨ pyStrip images_str = [] then (fs, 0)
  else
    let st := deleteFilesPhase base failSet
      { fs := fs, dirsToDelete := [], deletedCount := 0 } (parsedImages images_str)
    (cleanupDirs failSet st.fs st.dirsToDelete, st.deletedCount)

/-- The row loop of `filter_csv` (src/filter.py:352-375), restricted to the
kept/filtered decision and the deletions: rejected rows trigger
`delete_image_files`; kept rows are collected (with any backfilled grade). -/
def processRows (nlpo : Option (List Char → List NToken)) (base : FPath)
    (failSet : List FPath) : List FilterRow → FS → List FilterRow × FS × Nat
  | [], fs => ([], fs, 0)
  | row :: rest, fs =>
    let res := should_filter_row nlpo row
    if res.1 then
      let del := delete_image_files base failSet row.images fs
      let rec' := processRows nlpo base failSet rest del.1
      (rec'.1, rec'.2.1, del.2 + rec'.2.2)
    else
      let rec' := processRows nlpo base failSet rest fs
      (res.2.2 :: rec'.1, rec'.2.1, rec'.2.2)

theorem mem_removePath {l : List FPath} {p q : FPath} :
    q ∈ removePath l p ↔ q ∈ l ∧ q ≠ p := by
  simp [removePath, List.mem_filter]

theorem cleanupDirs_files (failSet ds : List FPath) :
    ∀ fs : FS, (cleanupDirs failSet fs ds).files = fs.files := by
  induction ds with
  | nil => intro fs; rfl
  | cons d ds ih =>
    intro fs
    simp only [cleanupDirs]
    by_cases h1 : d ∈ failSet
    · rw [if_pos h1]; exact ih fs
    · rw [if_neg h1]
      by_cases h2 : contentsOf fs d = []
      · rw [if_pos h2]; exact ih _
      · rw [if_neg h2]; exact ih fs

theorem cleanupDirs_not_mem (failSet ds : List FPath) :
    ∀ (fs : FS) (d : FPath), d ∉ fs.dirs → d ∉ (cleanupDirs failSet fs ds).dirs := by
  induction ds with
  | nil => intro fs d h; exact h
  | cons d0 ds ih =>
    intro fs d h
    simp only [cleanupDirs]
    by_cases h1 : d0 ∈ failSet
    · rw [if_pos h1]; exact ih fs d h
    · rw [if_neg h1]
      by_cases h2 : contentsOf fs d0 = []
      · rw [if_pos h2]
        refine ih _ d ?_
        intro hmem
        exact h (mem_removePath.mp hmem).1
      · rw [if_neg h2]; exact ih fs d h

theorem cleanupDirs_keeps_nonempty (failSet ds : List FPath) :
    ∀ (fs : FS) (d : FPath), filesIn fs d ≠ [] →
      (d ∈ (cleanupDirs failSet fs ds).dirs ↔ d ∈ fs.dirs) := by
  induction ds with
  | nil => intro fs d _; exact Iff.rfl
  | cons d0 ds ih =>
    intro fs d hne
    simp only [cleanupDirs]
    by_cases h1 : d0 ∈ failSet
    · rw [if_pos h1]; exact ih fs d hne
    · rw [if_neg h1]
      by_cases h2 : contentsOf fs d0 = []
      · rw [if_pos h2]
        have hdne : d ≠ d0 := by
          intro he
        -- if the emptied directory were `d`, its file list would be empty
          have hf : fs.files.filter (fun f => f.dropLast = d0) = [] :=
            (List.append_eq_nil.mp h2).1
          apply hne
          rw [he]
          exact hf
        have hfs' :
            filesIn { files := fs.files, dirs := removePath fs.dirs d0 } d ≠ [] := hne
        rw [ih _ d hfs']
        show d ∈ removePath fs.dirs d0 ↔ d ∈ fs.dirs
        constructor
        · intro hm; exact (mem_removePath.mp hm).1
        · intro hm; exact mem_removePath.mpr ⟨hm, hdne⟩
      · rw [if_neg h2]; exact ih fs d hne

theorem cleanupDirs_removes_empty (failSet ds : List FPath) :
    ∀ (fs : FS) (d : FPath), d ∈ ds → d ∉ failSet → contentsOf fs d = [] →
      d ∉ (cleanupDirs failSet fs ds).dirs := by
  induction ds with
  | nil => intro fs d h; exact absurd h (List.not_mem_nil d)
  | cons d0 ds ih =>
    intro fs d hmem hfail hempty
    simp only [cleanupDirs]
    rcases List.mem_cons.mp hmem with rfl | htail
    · rw [if_neg hfail, if_pos hempty]
      refine cleanupDirs_not_mem failSet ds _ d ?_
      intro hm
      exact (mem_removePath.mp hm).2 rfl
    · by_cases h1 : d0 ∈ failSet
      · rw [if_pos h1]; exact ih fs d htail hfail hempty
      · rw [if_neg h1]
        by_cases h2 : contentsOf fs d0 = []
        · rw [if_pos h2]
          refine ih _ d htail hfail ?_
          have hsub : List.Sublist
              (contentsOf { files := fs.files, dirs := removePath fs.dirs d0 } d)
              (contentsOf fs d) := by
            unfold contentsOf removePath
            exact List.Sublist.append (List.Sublist.refl _)
              (List.Sublist.filter _ (List.filter_sublist _))
          rw [hempty] at hsub
          exact List.sublist_nil.mp hsub
        · rw [if_neg h2]; exact ih fs d htail hfail hempty

theorem deleteFilesPhase_mono (base : FPath) (failSet : List FPath)
    (imgs : List (List Char)) :
    ∀ (st : DelState) (f : FPath), f ∉ st.fs.files →
      f ∉ (deleteFilesPhase base failSet st imgs).fs.files := by
  induction imgs with
  | nil => intro st f h; exact h
  | cons img rest ih =>
    intro st f h
    simp only [deleteFilesPhase]
    by_cases h1 : fullImagePath base img ∈ st.fs.files
    · rw [if_pos h1]
      by_cases h2 : fullImagePath base img ∈ failSet
      · rw [if_pos h2]; exact ih _ f h
      · rw [if_neg h2]
        refine ih _ f ?_
        intro hm
        exact h (mem_removePath.mp hm).1
    · rw [if_neg h1]
      by_cases h3 : (fullImagePath base img).dropLast ∈ st.fs.dirs
      · rw [if_pos h3]; exact ih _ f h
      · rw [if_neg h3]; exact ih _ f h

theorem deleteFilesPhase_deletes (base : FPath) (failSet : List FPath)
    (imgs : List (List Char)) :
    ∀ (st : DelState) (img : List Char), img ∈ imgs →
      fullImagePath base img ∉ failSet →
      fullImagePath base img ∉ (deleteFilesPhase base failSet st imgs).fs.files := by
  induction imgs with
  | nil => intro st img h; exact absurd h (List.not_mem_nil img)
  | cons img0 rest ih =>
    intro st img hmem hfail
    rcases List.mem_cons.mp hmem with rfl | htail
    · simp only [deleteFilesPhase]
      by_cases h1 : fullImagePath base img ∈ st.fs.files
      · rw [if_pos h1, if_neg hfail]
        refine deleteFilesPhase_mono base failSet rest _ _ ?_
        intro hm
        exact (mem_removePath.mp hm).2 rfl
      · rw [if_neg h1]
        by_cases h3 : (fullImagePath base img).dropLast ∈ st.fs.dirs
        · rw [if_pos h3]; exact deleteFilesPhase_mono base failSet rest _ _ h1
        · rw [if_neg h3]; exact deleteFilesPhase_mono base failSet rest _ _ h1
    · simp only [deleteFilesPhase]
      by_cases h1 : fullImagePath base img0 ∈ st.fs.files
      · rw [if_pos h1]
        by_cases h2 : fullImagePath base img0 ∈ failSet
        · rw [if_pos h2]; exact ih _ img htail hfail
        · rw [if_neg h2]; exact ih _ img htail hfail
      · rw [if_neg h1]
        by_cases h3 : (fullImagePath base img0).dropLast ∈ st.fs.dirs
        · rw [if_pos h3]; exact ih _ img htail hfail
        · rw [if_neg h3]; exact ih _ img htail hfail

theorem processRows_kept (nlpo : Option (List Char → List NToken)) (base : FPath)
    (failSet : List FPath) (rows : List FilterRow) :
    ∀ fs fs' : FS,
      (processRows nlpo base failSet rows fs).1
        = (processRows nlpo base [] rows fs').1 := by
  induction rows with
  | nil => intro fs fs'; rfl
  | cons row rest ih =>
    intro fs fs'
    simp only [processRows]
    by_cases hb : (should_filter_row nlpo row).1 = true
    · rw [if_pos hb, if_pos hb]; exact ih _ _
    · rw [if_neg hb, if_neg hb]
      rw [ih fs fs']

/-- Concrete inputs for the C9 witness: a base directory, an images cell
naming two files in two listing directories, and the corresponding paths. -/
def c9base : FPath := [(r"csvdir").toList]

def c9imgs : List Char := (r"x/a.jpg, y/b.jpg").toList

def c9pA : FPath := c9base ++ [(r"downloaded_images").toList, (r"x").toList, (r"a.jpg").toList]

def c9pB : FPath := c9base ++ [(r"downloaded_images").toList, (r"y").toList, (r"b.jpg").toList]

def c9dX : FPath := c9pA.dropLast

def c9dY : FPath := c9pB.dropLast

def c9fs : FS := { files := [c9pA, c9pB], dirs := [c9dX, c9dY] }

def c9fs2 : FS := { files := [c9pB], dirs := [c9dX, c9dY] }

/-- C9: cascading asset deletion is safe.  (i) The directory-cleanup pass
never touches files, and a directory whose re-enumerated contents still hold a
file is left exactly as it was (membership in the directory set is unchanged);
(ii) a directory in the cleanup set whose re-enumerated contents are empty is
removed, unless its own removal fails — other failures in `failSet` do not
prevent it; (iii) every parsed image file of the rejected row that is not
itself hit by a deletion failure is gone from the final filesystem returned by
`delete_image_files`, regardless of which other deletions fail; (iv) the rows
kept by the `filter_csv` batch loop are the same whether or not any deletions
fail, so per-item failures never abort or alter the processing of the
remaining rows. -/
theorem c9_cascading_deletion_safe
    (base : FPath) (failSet : List FPath) (fs : FS) (ds : List FPath)
    (images_str : List Char) (nlpo : Option (List Char → List NToken))
    (rows : List FilterRow) (fs₀ fs₁ : FS) :
    ((cleanupDirs failSet fs ds).files = fs.files
      ∧ ∀ d : FPath, filesIn fs d ≠ [] →
          (d ∈ (cleanupDirs failSet fs ds).dirs ↔ d ∈ fs.dirs))
    ∧ (∀ d : FPath, d ∈ ds → d ∉ failSet → contentsOf fs d = [] →
        d ∉ (cleanupDirs failSet fs ds).dirs)
    ∧ (∀ img : List Char, img ∈ parsedImages images_str →
        fullImagePath base img ∉ failSet →
        images_str ≠ [] → pyStrip images_str ≠ [] →
        fullImagePath base img ∉ (delete_image_files base failSet images_str fs).1.files)
    ∧ (processRows nlpo base failSet rows fs₀).1
        = (processRows nlpo base [] rows fs₁).1 := by
  refine ⟨⟨cleanupDirs_files failSet ds fs,
      fun d hne => cleanupDirs_keeps_nonempty failSet ds fs d hne⟩,
    fun d hm hf he => cleanupDirs_removes_empty failSet ds fs d hm hf he, ?_,
    processRows_kept nlpo base failSet rows fs₀ fs₁⟩
  intro img hmem hfail hne1 hne2
  unfold delete_image_files
  rw [if_neg (not_or.mpr ⟨hne1, hne2⟩)]
  show fullImagePath base img ∉
    (cleanupDirs failSet
      (deleteFilesPhase base failSet
        { fs := fs, dirsToDelete := [], deletedCount := 0 } (parsedImages images_str)).fs
      (deleteFilesPhase base failSet
        { fs := fs, dirsToDelete := [], deletedCount := 0 }
        (parsedImages images_str)).dirsToDelete).files
  rw [cleanupDirs_files]
  exact deleteFilesPhase_deletes base failSet (parsedImages images_str) _ img hmem hfail

/-- Witness for C9: with the unlink of `y/b.jpg` failing, `x/a.jpg` is still
deleted; on the post-deletion state, directory `x` (now empty) is removed
while directory `y` (still holding `b.jpg`) survives. -/
theorem c9_cascading_deletion_safe_witness :
    (fullImagePath c9base ((r"x/a.jpg").toList) ∉
        (delete_image_files c9base [c9pB] c9imgs c9fs).1.files)
    ∧ c9dX ∉ (cleanupDirs [c9pB] c9fs2 [c9dX, c9dY]).dirs
    ∧ c9dY ∈ (cleanupDirs [c9pB] c9fs2 [c9dX, c9dY]).dirs := by
  have h1 := c9_cascading_deletion_safe c9base [c9pB] c9fs2 [c9dX, c9dY] c9imgs
    none [] c9fs c9fs
  have h2 := c9_cascading_deletion_safe c9base [c9pB] c9fs [c9dX, c9dY] c9imgs
    none [] c9fs c9fs
  refine ⟨?_, ?_, ?_⟩
  · exact h2.2.2.1 ((r"x/a.jpg").toList) (by decide) (by decide) (by decide) (by decide)
  · exact h1.2.1 c9dX (by decide) (by decide) (by decide)
  · exact (h1.1.2 c9dY (by decide)).mpr (by decide)
